import Mathlib

/-!
Verification of the paper-trading execution core of `stockscores`
(`paper/services/execution.py`, `paper/engine/runner.py`, `paper/models.py`)
against its natural-language specification.

Shallow embedding conventions:
* Python `Decimal` values (prices, quantities, cash) are modelled as exact
  rationals `ℚ`; Django `DecimalField` storage quantisation belongs to the
  persistence layer, which the spec treats as a transactional key-value store.
* Timestamps are modelled as integer seconds (`ℤ`), with local time equal to
  UTC: `timezone.localtime` is the identity, a day is 86400 seconds.
* Nullable fields are `Option`; Python truthiness of a `Decimal` field
  (`if order.reserve_quantity:`) is `some v` with `v ≠ 0`.
* Django rows live in plain lists inside a `State`; `obj.save()` becomes a
  functional update of that list.  A `@transaction.atomic` method is one total
  Lean function `State → State`: the transition is all-or-nothing by
  construction, which is how atomicity statements are read below.
* Exceptions from the market-data provider are modelled by `Option`-valued
  oracles in an `Env` (`none` = the provider raised).
-/

namespace Alpaca

/-- Order status enum, `ORDER_STATUS_CHOICES` in `paper/models.py`. -/
inductive Status where
  | new | working | part_filled | filled | canceled | expired | rejected
deriving DecidableEq, Repr

/-- Order side. -/
inductive Side where
  | buy | sell
deriving DecidableEq, Repr

/-- Time-in-force enum (`paper/models.py`). -/
inductive Tif where
  | day | gtc | gtd | ioc | fok | aon | opg | cls | ext
deriving DecidableEq, Repr

/-- Order type enum, `ORDER_TYPE_CHOICES` in `paper/models.py`. -/
inductive OrderType where
  | market | limit | stop | stop_limit
  | trailing_amount | trailing_percent | trailing_limit
  | market_close | market_open | limit_close | limit_open
  | pegged_mid | pegged_primary | hidden_limit | iceberg
  | bracket | oco | oto | otoco
  | algo_vwap | algo_twap | algo_pov
deriving DecidableEq, Repr

/-- A market quote (`Quote` in `paper/services/market_data.py`); `bid`, `ask`
and `volume` are nullable. -/
structure Quote where
  symbol : String
  price : ℚ
  bid : Option ℚ := none
  ask : Option ℚ := none
  volume : Option ℚ := none
deriving DecidableEq, Repr

/-- Python truthiness of an optional Decimal: `None` and `Decimal("0")` are
falsy. -/
def truthyQ : Option ℚ → Bool
  | some v => v ≠ 0
  | none => false

/-- Python `x or d` for an optional Decimal `x`. -/
def qOr (x : Option ℚ) (d : ℚ) : ℚ :=
  match x with
  | some v => if v = 0 then d else v
  | none => d

/-- Payload handed to `IndicatorService.get_value` (the keys that method
reads). -/
structure IndPayload where
  indicator : Option String := none
  source : Option String := none
  window : Option ℤ := none
  period : Option String := none
  interval : Option String := none
  timeframe : Option String := none
  field : Option String := none
deriving DecidableEq, Repr

/-- Trigger condition: `condition_type` together with the payload keys each
branch of `ConditionEvaluator.satisfied` reads.  For the `time` condition the
payload timestamp is encoded as: `none` = key missing or empty (falsy),
`some none` = present but `fromisoformat` raises, `some (some t)` = parses to
`t`. -/
inductive Cond where
  | cnone
  | price (operator : Option String) (value : Option ℚ)
  | time (timestamp : Option (Option ℤ))
  | indicator (payload : IndPayload) (operator : Option String) (value : Option ℚ)
  | cross_symbol (symbol : Option String) (operator : Option String)
      (value : Option ℚ) (compareSymbol : Option String)
  | volume (operator : Option String) (value : Option ℚ) (basis : Option String)
      (window : Option ℤ) (period : Option String) (interval : Option String)
  | and_group (conds : List Cond)
  | or_group (conds : List Cond)

/-- `algo_params` JSON keys read by `AlgoOrderHandler`. -/
structure AlgoParams where
  slices : Option ℤ := none
  participation : Option ℚ := none
  intervalMinutes : Option ℚ := none
  intervalSeconds : Option ℚ := none
deriving DecidableEq, Repr

/-- One `slice_fill` entry appended to `notes["algo_events"]` by
`AlgoOrderHandler._update_schedule`. -/
structure AlgoEvent where
  timestamp : ℤ
  quantity : ℚ
  price : ℚ
  remaining : ℚ
deriving DecidableEq, Repr

/-- One entry of `notes["events"]` appended by
`ExecutionEngine._handle_parent_child` (wall-clock timestamps of the source
are not modelled). -/
inductive ChainEvent where
  | activate_children (chain : String) (count : ℕ)
  | child_fill (child : ℕ) (role : String) (status : Status)
  | chain_action (action : String) (count : ℕ)
deriving DecidableEq, Repr

/-- The `notes` JSON blob, restricted to the keys the execution core writes. -/
structure Notes where
  trailRef : Option ℚ := none
  algoEvents : List AlgoEvent := []
  events : List ChainEvent := []
deriving DecidableEq, Repr

/-- `PaperOrder` (`paper/models.py`), restricted to the fields the execution
core reads or writes. -/
structure Order where
  id : ℕ
  symbol : String
  side : Side
  orderType : OrderType
  tif : Tif := .day
  tifDate : Option ℤ := none
  quantity : Option ℚ := none
  notional : Option ℚ := none
  limitPrice : Option ℚ := none
  stopPrice : Option ℚ := none
  trailAmount : Option ℚ := none
  trailPercent : Option ℚ := none
  reserveQuantity : Option ℚ := none
  peggedOffset : Option ℚ := none
  extendedHours : Bool := false
  condition : Cond := .cnone
  parentId : Option ℕ := none
  chainId : String := ""
  childRole : String := ""
  algoParams : AlgoParams := {}
  algoNextRunAt : Option ℤ := none
  algoSliceIndex : ℕ := 0
  status : Status := .new
  filledQuantity : ℚ := 0
  averageFillPrice : Option ℚ := none
  createdAt : ℤ := 0
  strategyId : Option ℕ := none
  notes : Notes := {}

/-- `PaperPortfolio` money fields. -/
structure Portfolio where
  cashBalance : ℚ := 100000
  equity : ℚ := 100000
  realizedPnl : ℚ := 0
  unrealizedPnl : ℚ := 0
  startingBalance : ℚ := 100000
deriving DecidableEq, Repr

/-- `PaperPosition` (one row; the portfolio key is implicit, a `State` holds
one portfolio). -/
structure Position where
  symbol : String
  quantity : ℚ
  avgPrice : ℚ
  marketValue : ℚ
  unrealizedPnl : ℚ
deriving DecidableEq, Repr

/-- `PaperTrade` (immutable fill record). -/
structure Trade where
  orderId : ℕ
  symbol : String
  side : Side
  quantity : ℚ
  price : ℚ
  fees : ℚ
  slippage : ℚ
  realizedPnl : ℚ
deriving DecidableEq, Repr

/-- `FillResult` dataclass (`execution.py`). -/
structure FillResult where
  filled : Bool
  quantity : ℚ := 0
  price : ℚ := 0
  remaining : ℚ := 0
  fees : ℚ := 0
  slippage : ℚ := 0
deriving DecidableEq, Repr

/-- Engine settings read in `ExecutionEngine.__init__`. -/
structure EngineCfg where
  slippageBps : ℚ := 0
  feesPerShare : ℚ := 0
  flatCommission : ℚ := 0
deriving DecidableEq, Repr

/-- The durable store for one portfolio: the rows a fill-application
transaction may touch. -/
structure State where
  portfolio : Portfolio := {}
  positions : List Position := []
  orders : List Order := []
  trades : List Trade := []

/-- External world: quote provider and indicator service results.
`getQuote s = none` models `get_quote` raising; `indicatorValue` models the
result of `IndicatorService.get_value` (which returns `None` on provider
failure, empty history, or an unknown indicator/score). -/
structure Env where
  getQuote : String → Option Quote
  indicatorValue : String → IndPayload → Option ℚ

/-! ### Condition evaluator (`ConditionEvaluator.satisfied`) -/

/-- `OPERATORS.get(operator, OPERATORS["gte"])`: comparator lookup with
default `gte`. -/
def opFun (s : String) : ℚ → ℚ → Bool :=
  if s = "gt" then fun a b => a > b
  else if s = "gte" then fun a b => a ≥ b
  else if s = "lt" then fun a b => a < b
  else if s = "lte" then fun a b => a ≤ b
  else if s = "eq" then fun a b => a = b
  else fun a b => a ≥ b

/-- `payload.get("operator", "gte")` composed with the comparator lookup. -/
def opOf (operator : Option String) : ℚ → ℚ → Bool :=
  opFun (operator.getD "gte")

/-- Python truthiness of an optional string (`if payload.get("compare_symbol"):`). -/
def truthyS : Option String → Bool
  | some s => s ≠ ""
  | none => false

mutual

/-- `ConditionEvaluator.satisfied(order, quote, now)`.  The source evaluates
`and_group`/`or_group` children by temporarily overwriting
`order.condition_type`/`condition_payload` and restoring them afterwards; the
net effect on a pure reading is recursion over the child condition specs with
the same order symbol, which is how it is embedded here.  All children are
evaluated (no short-circuit), matching the source's `results` list. -/
def satisfiedCond (env : Env) (sym : String) (quote : Quote) (now : ℤ) :
    Cond → Bool
  | .cnone => true
  | .price operator value =>
    match value with
    | none => true
    | some v => opOf operator quote.price v
  | .time ts =>
    match ts with
    | none => true
    | some none => true
    | some (some target) => now ≥ target
  | .indicator payload operator threshold =>
    match env.indicatorValue sym payload, threshold with
    | none, _ => true
    | _, none => true
    | some v, some t => opOf operator v t
  | .cross_symbol symbol operator value compareSymbol =>
    let targetSymbol := symbol.getD sym
    match (if targetSymbol = sym then some quote else env.getQuote targetSymbol) with
    | none => true
    | some baseQuote =>
      if truthyS compareSymbol then
        match env.getQuote (compareSymbol.getD "") with
        | none => true
        | some compareQuote => opOf operator baseQuote.price compareQuote.price
      else
        let compareValue := value.getD quote.price
        opOf operator baseQuote.price compareValue
  | .volume operator value basis window period interval =>
    if basis = some "average" then
      let avg := env.indicatorValue sym
        { indicator := some "volume", window := some (window.getD 20),
          period := some (period.getD "3mo"), interval := some (interval.getD "1d") }
      match avg, value with
      | none, _ => true
      | _, none => true
      | some a, some t => opOf operator a t
    else
      match quote.volume, value with
      | none, _ => true
      | _, none => true
      | some v, some t => opOf operator v t
  | .and_group conds => (satisfiedList env sym quote now conds).all id
  | .or_group conds => (satisfiedList env sym quote now conds).any id

/-- The child results list built by the group branches. -/
def satisfiedList (env : Env) (sym : String) (quote : Quote) (now : ℤ) :
    List Cond → List Bool
  | [] => []
  | c :: cs => satisfiedCond env sym quote now c :: satisfiedList env sym quote now cs

end

/-- `satisfied` applied to an order (the source reads
`order.condition_type`/`condition_payload`/`order.symbol`). -/
def satisfiedOrder (env : Env) (o : Order) (quote : Quote) (now : ℤ) : Bool :=
  satisfiedCond env o.symbol quote now o.condition

/-! ### Order handlers (`maybe_fill` per order type) -/

/-- `order.status in {"new", "working", "part_filled"}`. -/
def isOpen : Status → Bool
  | .new | .working | .part_filled => true
  | _ => false

/-- The tail of `MarketOrderHandler._resolve_quantity` once a total quantity
is known: `remaining = total − filled_quantity`, non-positive remaining is no
fill, and a truthy `reserve_quantity` caps the visible slice at
`min(reserve_quantity, remaining)`. -/
def visibleSlice (o : Order) (totalQty : ℚ) : ℚ × ℚ :=
  let remaining := totalQty - o.filledQuantity
  if remaining ≤ 0 then (0, 0)
  else if truthyQ o.reserveQuantity then
    let visible := min (qOr o.reserveQuantity 0) remaining
    (visible, remaining - visible)
  else (remaining, 0)

/-- `MarketOrderHandler._resolve_quantity`: resolves `notional` to a quantity
once (persisting it back onto the order — which changes no other field) and
applies the iceberg/reserve visible-slice cap.  Returns (fill quantity,
remaining after, updated order). -/
def resolveQuantity (o : Order) (price : ℚ) : ℚ × ℚ × Order :=
  match o.quantity with
  | some tq => ((visibleSlice o tq).1, (visibleSlice o tq).2, o)
  | none =>
    if truthyQ o.notional then
      let t := qOr o.notional 0 / price
      let o2 := { o with quantity := some t }
      ((visibleSlice o2 t).1, (visibleSlice o2 t).2, o2)
    else (0, 0, o)

/-- `MarketOrderHandler.maybe_fill`. -/
def marketMaybeFill (o : Order) (q : Quote) : Option FillResult × Order :=
  if isOpen o.status then
    let price := q.price
    let (qty, remainingAfter, o) := resolveQuantity o price
    if qty ≤ 0 then (none, o)
    else (some { filled := true, quantity := qty, price := price,
                 remaining := remainingAfter }, o)
  else (none, o)

/-- `LimitOrderHandler.maybe_fill` (also used for `hidden_limit` and
`iceberg`). -/
def limitMaybeFill (o : Order) (q : Quote) : Option FillResult × Order :=
  if isOpen o.status ∧ o.limitPrice ≠ none then
    let price := q.price
    let limitPrice := o.limitPrice.getD 0
    let shouldFill : Bool := if o.side = .buy then price ≤ limitPrice else price ≥ limitPrice
    if shouldFill then
      let (qty, remainingAfter, o) := resolveQuantity o price
      (some { filled := true, quantity := qty, price := limitPrice,
              remaining := remainingAfter }, o)
    else (none, { o with status := .working })
  else (none, o)

/-- `StopOrderHandler.maybe_fill`. -/
def stopMaybeFill (o : Order) (q : Quote) : Option FillResult × Order :=
  if isOpen o.status ∧ o.stopPrice ≠ none then
    let price := q.price
    let stopPrice := o.stopPrice.getD 0
    let triggered : Bool := if o.side = .buy then price ≥ stopPrice else price ≤ stopPrice
    if triggered then
      let (qty, remainingAfter, o) := resolveQuantity o price
      (some { filled := true, quantity := qty, price := price,
              remaining := remainingAfter }, o)
    else (none, { o with status := .working })
  else (none, o)

/-- `StopLimitOrderHandler.maybe_fill`. -/
def stopLimitMaybeFill (o : Order) (q : Quote) : Option FillResult × Order :=
  if isOpen o.status ∧ o.stopPrice ≠ none ∧ o.limitPrice ≠ none then
    let price := q.price
    let stopPrice := o.stopPrice.getD 0
    let limitPrice := o.limitPrice.getD 0
    let triggered : Bool := if o.side = .buy then price ≥ stopPrice else price ≤ stopPrice
    if triggered then
      let shouldFill : Bool := if o.side = .buy then price ≤ limitPrice else price ≥ limitPrice
      if shouldFill then
        let (qty, remainingAfter, o) := resolveQuantity o price
        (some { filled := true, quantity := qty, price := limitPrice,
                remaining := remainingAfter }, o)
      else (none, o)
    else (none, { o with status := .working })
  else (none, o)

/-- `TrailingStopHandler.maybe_fill`.  The reference price is
`order.stop_price or price` (Python `or`, so a zero or missing stop price
falls back to the current quote price); on a non-filling evaluation the
reference is written to `notes["trail_ref"]` (stored in the source as a
string, here as the rational itself). -/
def trailingMaybeFill (o : Order) (q : Quote) : Option FillResult × Order :=
  if isOpen o.status then
    let price := q.price
    let trail? : Option ℚ :=
      if o.orderType = .trailing_amount ∧ truthyQ o.trailAmount then
        some (qOr o.trailAmount 0)
      else if o.orderType = .trailing_percent ∧ truthyQ o.trailPercent then
        some (price * qOr o.trailPercent 0 / 100)
      else none
    match trail? with
    | none => (none, o)
    | some trail =>
      let refPrice := qOr o.stopPrice price
      if o.side = .sell then
        if price ≤ refPrice - trail then
          let (qty, remainingAfter, o) := resolveQuantity o price
          (some { filled := true, quantity := qty, price := price,
                  remaining := remainingAfter }, o)
        else (none, { o with notes := { o.notes with trailRef := some refPrice } })
      else
        if price ≥ refPrice + trail then
          let (qty, remainingAfter, o) := resolveQuantity o price
          (some { filled := true, quantity := qty, price := price,
                  remaining := remainingAfter }, o)
        else (none, { o with notes := { o.notes with trailRef := some refPrice } })
  else (none, o)

/-- `TrailingStopLimitHandler.maybe_fill`: trailing logic, fill price clamped
to `limit_price` when the latter is truthy. -/
def trailingLimitMaybeFill (o : Order) (q : Quote) : Option FillResult × Order :=
  let (result, o) := trailingMaybeFill o q
  match result with
  | some r =>
    if r.filled ∧ truthyQ o.limitPrice then
      (some { r with price := qOr o.limitPrice 0 }, o)
    else (some r, o)
  | none => (none, o)

/-- `_within_window`: the local time is within ±5 minutes of the target
time-of-day (`abs(seconds)/60 ≤ 5`, i.e. `abs(seconds) ≤ 300`). -/
def withinWindow (now : ℤ) (targetSecOfDay : ℤ) : Bool :=
  |now % 86400 - targetSecOfDay| ≤ 300

def marketOpenSec : ℤ := 9 * 3600 + 30 * 60

def marketCloseSec : ℤ := 16 * 3600

/-- `SessionOrderHandler.maybe_fill` (`market_open`/`market_close`). -/
def sessionMaybeFill (target : ℤ) (o : Order) (q : Quote) (now : ℤ) :
    Option FillResult × Order :=
  if withinWindow now target then marketMaybeFill o q
  else (none, { o with status := .working })

/-- `LimitSessionHandler.maybe_fill` (`limit_open`/`limit_close`). -/
def limitSessionMaybeFill (target : ℤ) (o : Order) (q : Quote) (now : ℤ) :
    Option FillResult × Order :=
  if withinWindow now target then limitMaybeFill o q
  else (none, { o with status := .working })

/-- `PeggedOrderHandler.maybe_fill`: recompute `limit_price` from the
midpoint or bid (± offset), persist it, then behave as a limit order. -/
def peggedMaybeFill (o : Order) (q : Quote) : Option FillResult × Order :=
  let price :=
    if o.orderType = .pegged_mid ∧ truthyQ q.bid ∧ truthyQ q.ask then
      (qOr q.bid 0 + qOr q.ask 0) / 2
    else if o.orderType = .pegged_primary ∧ truthyQ q.bid then qOr q.bid 0
    else q.price
  let offset := qOr o.peggedOffset 0
  let newLimit := if o.side = .buy then price + offset else price - offset
  limitMaybeFill { o with limitPrice := some newLimit } q

/-! #### Algorithmic slicing (`AlgoOrderHandler`) -/

/-- Python `int()` on a nonnegative-or-negative rational: truncation toward
zero. -/
def qTrunc (x : ℚ) : ℤ := if x ≥ 0 then ⌊x⌋ else ⌈x⌉

/-- `AlgoOrderHandler._interval_seconds`. -/
def intervalSeconds (params : AlgoParams) (orderType : OrderType) : ℤ :=
  if orderType = .algo_twap ∧ params.intervalMinutes ≠ none then
    max 10 (qTrunc (params.intervalMinutes.getD 0 * 60))
  else
    match params.intervalSeconds with
    | some s => max 5 (qTrunc s)
    | none => 60

/-- `AlgoOrderHandler._resolve_total_quantity` (note: unlike
`_resolve_quantity` this tests `order.quantity` for truthiness, not `None`). -/
def resolveTotalQuantity (o : Order) (q : Quote) : ℚ × Order :=
  if truthyQ o.quantity then (qOr o.quantity 0, o)
  else if truthyQ o.notional then
    let qty := qOr o.notional 0 / q.price
    (qty, { o with quantity := some qty })
  else (0, o)

/-- `AlgoOrderHandler._apply_reserve_cap`. -/
def applyReserveCap (o : Order) (sliceQty remainingTotal : ℚ) : ℚ :=
  let s := min sliceQty remainingTotal
  let s := if truthyQ o.reserveQuantity then min s (qOr o.reserveQuantity 0) else s
  max s 0

/-- `AlgoOrderHandler._handle_twap`. -/
def handleTwap (o : Order) (params : AlgoParams) (q : Quote) :
    Option FillResult × Order :=
  let slices : ℤ := max 1 (params.slices.getD 10)
  let (total, o) := resolveTotalQuantity o q
  let remainingTotal := total - o.filledQuantity
  if remainingTotal ≤ 0 then (none, o)
  else
    let remainingSlices : ℚ := ((max (slices - (o.algoSliceIndex : ℤ)) 1 : ℤ) : ℚ)
    let sliceQty := applyReserveCap o (remainingTotal / remainingSlices) remainingTotal
    if sliceQty ≤ 0 then (none, o)
    else (some { filled := true, quantity := sliceQty, price := q.price,
                 remaining := max (remainingTotal - sliceQty) 0 }, o)

/-- `AlgoOrderHandler._handle_vwap`. -/
def handleVwap (o : Order) (params : AlgoParams) (q : Quote) :
    Option FillResult × Order :=
  let (total, o) := resolveTotalQuantity o q
  let remainingTotal := total - o.filledQuantity
  if remainingTotal ≤ 0 then (none, o)
  else
    let rate := params.participation.getD (1 / 10)
    let sliceQty := applyReserveCap o (remainingTotal * rate) remainingTotal
    if sliceQty ≤ 0 then (none, o)
    else (some { filled := true, quantity := sliceQty, price := q.price,
                 remaining := max (remainingTotal - sliceQty) 0 }, o)

/-- `AlgoOrderHandler._handle_pov`. -/
def handlePov (o : Order) (params : AlgoParams) (q : Quote) :
    Option FillResult × Order :=
  let rate := params.participation.getD (1 / 10)
  let volume := qOr q.volume 0
  let (total, o) := resolveTotalQuantity o q
  let remainingTotal := total - o.filledQuantity
  if volume ≤ 0 ∨ remainingTotal ≤ 0 then (none, o)
  else
    let sliceQty := applyReserveCap o (volume * rate) remainingTotal
    if sliceQty ≤ 0 then (none, o)
    else (some { filled := true, quantity := sliceQty, price := q.price,
                 remaining := max (remainingTotal - sliceQty) 0 }, o)

/-- `AlgoOrderHandler._update_schedule`: always reschedules
`algo_next_run_at`; increments `algo_slice_index` and appends a `slice_fill`
event only when the invocation produced a fill. -/
def updateSchedule (o : Order) (params : AlgoParams) (now : ℤ)
    (result : Option FillResult) : Order :=
  let nextRun := now + intervalSeconds params o.orderType
  let o := { o with algoNextRunAt := some nextRun }
  match result with
  | some r =>
    if r.filled then
      { o with algoSliceIndex := o.algoSliceIndex + 1,
               notes := { o.notes with algoEvents := o.notes.algoEvents ++
                 [{ timestamp := now, quantity := r.quantity, price := r.price,
                    remaining := r.remaining }] } }
    else o
  | none => o

/-- `AlgoOrderHandler.maybe_fill`.  Not yet due (`algo_next_run_at` set and
in the future) returns early with no changes at all; otherwise dispatches by
type and always runs `_update_schedule`. -/
def algoMaybeFill (o : Order) (q : Quote) (now : ℤ) : Option FillResult × Order :=
  let params := o.algoParams
  let notDue : Bool := match o.algoNextRunAt with
    | some t => decide (now < t)
    | none => false
  if notDue then (none, o)
  else
    let (result, o) :=
      match o.orderType with
      | .algo_twap => handleTwap o params q
      | .algo_vwap => handleVwap o params q
      | .algo_pov => handlePov o params q
      | _ => (none, o)
    (result, updateSchedule o params now result)

/-- Handler dispatch table (`ExecutionEngine.handlers`) followed by the
chosen handler's `maybe_fill`; the bracket/OCO/OTO/OTOCO parents are no-op
handlers. -/
def maybeFill (o : Order) (q : Quote) (now : ℤ) : Option FillResult × Order :=
  match o.orderType with
  | .market => marketMaybeFill o q
  | .limit | .hidden_limit | .iceberg => limitMaybeFill o q
  | .stop => stopMaybeFill o q
  | .stop_limit => stopLimitMaybeFill o q
  | .trailing_amount | .trailing_percent => trailingMaybeFill o q
  | .trailing_limit => trailingLimitMaybeFill o q
  | .market_open => sessionMaybeFill marketOpenSec o q now
  | .market_close => sessionMaybeFill marketCloseSec o q now
  | .limit_open => limitSessionMaybeFill marketOpenSec o q now
  | .limit_close => limitSessionMaybeFill marketCloseSec o q now
  | .pegged_mid | .pegged_primary => peggedMaybeFill o q
  | .bracket | .oco | .oto | .otoco => (none, o)
  | .algo_twap | .algo_vwap | .algo_pov => algoMaybeFill o q now

/-! ### Fill application and order-chain propagation (`ExecutionEngine`) -/

/-- `order.save()`: functional update of the orders list by id. -/
def updateOrders (l : List Order) (o : Order) : List Order :=
  l.map fun (x : Order) => if x.id = o.id then o else x

/-- Slippage multiplier (basis points, unfavorable direction per side). -/
def slipMult (cfg : EngineCfg) (side : Side) : ℚ :=
  if side = .buy then 1 + cfg.slippageBps / 10000 else 1 - cfg.slippageBps / 10000

/-- Effective fill price after slippage. -/
def effPrice (cfg : EngineCfg) (side : Side) (price : ℚ) : ℚ :=
  price * slipMult cfg side

/-- `_refresh_position_market_value` with a price hint. -/
def refreshPosition (p : Position) (price : ℚ) : Position :=
  let mv := p.quantity * price
  { p with marketValue := mv, unrealizedPnl := mv - p.quantity * p.avgPrice }

/-- `_recalculate_portfolio_totals`: full recompute of equity and unrealized
P&L from the position rows. -/
def recalcTotals (pf : Portfolio) (positions : List Position) : Portfolio :=
  let totalMarket := (positions.map (·.marketValue)).sum
  let totalUnreal := (positions.map (·.unrealizedPnl)).sum
  { pf with equity := pf.cashBalance + totalMarket, unrealizedPnl := totalUnreal }

/-- `ExecutionEngine._handle_parent_child`, run inside the fill transaction.
If the filled order has children: assign a chain id, activate children (the
source filter includes status `"waiting"`, which is not a member of
`ORDER_STATUS_CHOICES`, so only `"new"` matches) and log an event.  If it has
a parent: log a `child_fill` event, then cancel or activate siblings by
parent type / child role and log a `chain_action` event.  (The source stamps
these events with `timezone.now()`; wall-clock timestamps are not
modelled.) -/
def handleParentChildOrders (l : List Order) (o : Order) : List Order :=
  if (l.filter fun (x : Order) => x.parentId = some o.id).isEmpty = false then
    let cid := if o.chainId = "" then "chain-" ++ toString o.id else o.chainId
    let o := { o with chainId := cid }
    let l := updateOrders l o
    let l := l.map fun (x : Order) =>
      if x.parentId = some o.id ∧ x.chainId = "" then { x with chainId := cid } else x
    let count := (l.filter fun (x : Order) =>
      x.parentId = some o.id ∧ x.status = Status.new).length
    let l := l.map fun (x : Order) =>
      if x.parentId = some o.id ∧ x.status = Status.new then { x with status := Status.working } else x
    let o := { o with notes := { o.notes with
      events := o.notes.events ++ [ChainEvent.activate_children cid count] } }
    updateOrders l o
  else
    match o.parentId with
    | none => l
    | some pid =>
      match l.find? fun (x : Order) => x.id = pid with
      | none => l
      | some parent =>
        let parent := { parent with notes := { parent.notes with
          events := parent.notes.events ++ [ChainEvent.child_fill o.id o.childRole o.status] } }
        let l := updateOrders l parent
        if parent.orderType = .bracket ∨ parent.orderType = .otoco ∨
            o.childRole = "tp" ∨ o.childRole = "sl" then
          let count := (l.filter fun (x : Order) =>
            x.parentId = some pid ∧ x.id ≠ o.id ∧
              x.status ≠ Status.canceled ∧ x.status ≠ Status.filled).length
          let l := l.map fun (x : Order) =>
            if x.parentId = some pid ∧ x.id ≠ o.id ∧
                x.status ≠ Status.canceled ∧ x.status ≠ Status.filled then
              { x with status := Status.canceled }
            else x
          let parent := { parent with notes := { parent.notes with
            events := parent.notes.events ++ [ChainEvent.chain_action "cancel" count] } }
          updateOrders l parent
        else if parent.orderType = .oco then
          let count := (l.filter fun (x : Order) =>
            x.parentId = some pid ∧ x.id ≠ o.id ∧
              x.status ≠ Status.canceled ∧ x.status ≠ Status.filled).length
          let l := l.map fun (x : Order) =>
            if x.parentId = some pid ∧ x.id ≠ o.id ∧
                x.status ≠ Status.canceled ∧ x.status ≠ Status.filled then
              { x with status := Status.canceled }
            else x
          let parent := { parent with notes := { parent.notes with
            events := parent.notes.events ++ [ChainEvent.chain_action "cancel" count] } }
          updateOrders l parent
        else if parent.orderType = .oto then
          let count := (l.filter fun (x : Order) =>
            x.parentId = some pid ∧ x.id ≠ o.id ∧ x.status = Status.new).length
          let l := l.map fun (x : Order) =>
            if x.parentId = some pid ∧ x.id ≠ o.id ∧ x.status = Status.new then
              { x with status := Status.working }
            else x
          let parent := { parent with notes := { parent.notes with
            events := parent.notes.events ++ [ChainEvent.chain_action "activate" count] } }
          updateOrders l parent
        else
          let parent := { parent with notes := { parent.notes with
            events := parent.notes.events ++ [ChainEvent.chain_action "none" 0] } }
          updateOrders l parent

/-- `_handle_parent_child` touches only order rows, so it is stated as an
orders-list transformation lifted to the state. -/
def handleParentChild (st : State) (o : Order) : State :=
  { st with orders := handleParentChildOrders st.orders o }

/-- The cash / position-upsert part of `_apply_fill` (the two `if order.side`
branches): returns the new cash balance, the new position rows and
`entry_avg_price`. -/
def applyFillLedger (st : State) (o : Order) (fillPrice qty : ℚ)
    (fees : ℚ) : ℚ × List Position × Option ℚ :=
  let cost := qty * fillPrice
  let sym := o.symbol.toUpper
  let pf := st.portfolio
  if o.side = .buy then
    let cash := pf.cashBalance - (cost + fees)
    match st.positions.find? fun (p : Position) => p.symbol = sym with
    | none =>
      let p0 : Position := { symbol := sym, quantity := 0, avgPrice := fillPrice,
                             marketValue := 0, unrealizedPnl := 0 }
      let entry := p0.avgPrice
      let totalQty := p0.quantity + qty
      let p1 :=
        if totalQty > 0 then
          { p0 with quantity := totalQty,
                    avgPrice := (p0.quantity * p0.avgPrice + cost) / totalQty }
        else { p0 with quantity := totalQty }
      (cash, st.positions ++ [refreshPosition p1 fillPrice], some entry)
    | some p0 =>
      let entry := p0.avgPrice
      let totalQty := p0.quantity + qty
      let p1 :=
        if totalQty > 0 then
          { p0 with quantity := totalQty,
                    avgPrice := (p0.quantity * p0.avgPrice + cost) / totalQty }
        else { p0 with quantity := totalQty }
      let p2 := refreshPosition p1 fillPrice
      (cash, st.positions.map fun (x : Position) => if x.symbol = sym then p2 else x,
       some entry)
  else
    let cash := pf.cashBalance + (cost - fees)
    match st.positions.find? fun (p : Position) => p.symbol = sym with
    | none => (cash, st.positions, none)
    | some p0 =>
      let entry := p0.avgPrice
      let p2 := refreshPosition { p0 with quantity := p0.quantity - qty } fillPrice
      (cash, st.positions.map fun (x : Position) => if x.symbol = sym then p2 else x,
       some entry)

/-- The order-row bookkeeping part of `_apply_fill`: cumulative
`filled_quantity`, quantity-weighted `average_fill_price`, and the
`part_filled`/`filled` status decision (`total_qty = order.quantity or
new_total_filled`). -/
def bookkeepOrder (o : Order) (fillPrice qty : ℚ) : Order :=
  let prevFilled := o.filledQuantity
  let newTotalFilled := prevFilled + qty
  let avgFill :=
    if prevFilled > 0 ∧ truthyQ o.averageFillPrice then
      (qOr o.averageFillPrice 0 * prevFilled + fillPrice * qty) / newTotalFilled
    else fillPrice
  let totalQty := qOr o.quantity newTotalFilled
  let remainingAfterFill := totalQty - newTotalFilled
  { o with filledQuantity := newTotalFilled, averageFillPrice := some avgFill,
           status := if remainingAfterFill > 0 then .part_filled else .filled }

/-- `ExecutionEngine._apply_fill` — the single `@transaction.atomic` ledger
mutation: slippage, fees, cash debit/credit, position upsert (weighted
average on a buy, reduce on a sell), trade record, order fill bookkeeping,
full portfolio recompute, realized P&L on a reducing sell, and order-chain
propagation.  The whole transition is one total function: atomicity
(no partial ledger state on failure) is by construction. -/
def applyFill (cfg : EngineCfg) (st : State) (o : Order) (r : FillResult) : State :=
  let fillPrice := effPrice cfg o.side r.price
  let qty := r.quantity
  let fees := qty * cfg.feesPerShare + cfg.flatCommission + r.fees
  let (cash, positions, entryAvg) := applyFillLedger st o fillPrice qty fees
  let trade : Trade := { orderId := o.id, symbol := o.symbol.toUpper, side := o.side,
                         quantity := qty, price := fillPrice, fees := r.fees,
                         slippage := r.slippage, realizedPnl := 0 }
  let o := bookkeepOrder o fillPrice qty
  let pf := recalcTotals { st.portfolio with cashBalance := cash } positions
  let (pf, trade) :=
    if o.side = .sell ∧ entryAvg ≠ none then
      let rp := (fillPrice - entryAvg.getD 0) * qty
      ({ pf with realizedPnl := pf.realizedPnl + rp }, { trade with realizedPnl := rp })
    else (pf, trade)
  handleParentChild
    { st with portfolio := pf, positions := positions,
              orders := updateOrders st.orders o,
              trades := st.trades ++ [trade] } o


/-- `timezone.localdate`: the local calendar day of a timestamp (floor
division by a day; local time = UTC in this model). -/
def localdate (t : ℤ) : ℤ := Int.fdiv t 86400

/-- `_tif_allows_processing`: DAY orders created on a prior calendar day and
GTD orders past `tif_date` expire (a persisted, terminal, unconditional
transition).  Returns the possibly-updated order and whether processing may
continue. -/
def tifGate (o : Order) (now : ℤ) : Order × Bool :=
  if o.tif = .day ∧ localdate now > localdate o.createdAt then
    ({ o with status := .expired }, false)
  else if o.tif = .gtd ∧ o.tifDate ≠ none ∧ now > o.tifDate.getD 0 then
    ({ o with status := .expired }, false)
  else (o, true)

/-- `_in_regular_hours` (09:30–16:00 local). -/
def inRegularHours (now : ℤ) : Bool :=
  decide (marketOpenSec ≤ now % 86400 ∧ now % 86400 ≤ marketCloseSec)

/-- `order.status = "canceled"; order.save(update_fields=["status"])`. -/
def cancelOrder (st : State) (oid : ℕ) : State :=
  { st with orders := st.orders.map fun (x : Order) =>
      if x.id = oid then { x with status := Status.canceled } else x }

/-- `ExecutionEngine._process_order_instance` for the order with id `oid`:
status re-read → TIF/expiry gate → extended-hours gate → quote fetch
(provider failure skips the order with no state change) → condition
evaluation → handler dispatch → fill application → IOC/FOK cancellation.
The source re-reads the order's status from the durable store before acting;
here the store (`st.orders`) is authoritative, so the re-read is the lookup
itself. -/
def processOrderInstance (cfg : EngineCfg) (env : Env) (st : State) (oid : ℕ)
    (now : ℤ) : State :=
  match st.orders.find? fun (x : Order) => x.id = oid with
  | none => st
  | some o =>
    if isOpen o.status then
      match tifGate o now with
      | (o, false) => { st with orders := updateOrders st.orders o }
      | (o, true) =>
        if o.extendedHours = false ∧ inRegularHours now = false then st
        else
          match env.getQuote o.symbol with
          | none => st
          | some quote =>
            if satisfiedOrder env o quote now then
              let (result, o) := maybeFill o quote now
              let st := { st with orders := updateOrders st.orders o }
              match result with
              | some r =>
                if r.filled then
                  let st := applyFill cfg st o r
                  if o.tif = .fok ∧ r.remaining > 0 then cancelOrder st oid else st
                else if o.tif = .ioc ∨ o.tif = .fok then cancelOrder st oid else st
              | none => if o.tif = .ioc ∨ o.tif = .fok then cancelOrder st oid else st
            else st
    else st

/-! ### Strategy runner (`paper/engine/runner.py`) -/

/-- Errors a strategy-runner call can raise.  `runner.py` imports
`dataclasses`, `typing`, `django.utils.timezone`, `django.db.transaction`
and the paper models/services — but not `decimal`, so the name `Decimal`
used on its line 116 is unbound there. -/
inductive RunnerError where
  | nameErrorDecimal
deriving DecidableEq, Repr

/-- A resolved order template (named template merged with inline overrides,
`_resolve_template`): the template keys exercised by the strategy tests and
Scenario D. -/
structure OrderCfg where
  side : Option Side := none
  orderType : Option OrderType := none
  limitPrice : Option ℚ := none
  stopPrice : Option ℚ := none
  tif : Option Tif := none
  quantityPct : Option ℚ := none
  quantity : Option ℚ := none
deriving DecidableEq, Repr

/-- The keyword arguments `_create_order` passes to
`PaperOrder.objects.create` (the popped `quantity_pct` key removed, plus
portfolio/strategy/symbol/status). -/
structure NewOrder where
  side : Option Side
  orderType : Option OrderType
  limitPrice : Option ℚ
  stopPrice : Option ℚ
  tif : Option Tif
  quantity : Option ℚ
  symbol : String
  status : Status
deriving DecidableEq, Repr

/-- `StrategyRunner._create_order`.  `quantity = data.pop("quantity_pct",
None)` removes the pct key; a truthy pct enters the branch
`data["quantity"] = (Decimal(str(quantity)) / Decimal("100")) * Decimal(str(equity))`
(after `equity = portfolio.equity or portfolio.starting_balance`), but
`runner.py` has no `from decimal import Decimal`, so evaluating that
expression raises `NameError: name 'Decimal' is not defined` and no order is
created.  A falsy/absent pct creates the order from the remaining keys. -/
def createOrder (cfg : OrderCfg) (pf : Portfolio) (sym : String) :
    Except RunnerError NewOrder :=
  if truthyQ cfg.quantityPct then
    let _equity := if pf.equity = 0 then pf.startingBalance else pf.equity
    Except.error RunnerError.nameErrorDecimal
  else
    Except.ok { side := cfg.side, orderType := cfg.orderType,
                limitPrice := cfg.limitPrice, stopPrice := cfg.stopPrice,
                tif := cfg.tif, quantity := cfg.quantity,
                symbol := sym, status := Status.new }

/-- Modelled from the spec (§4.7, Scenario D): the intended `quantity_pct`
resolution `(pct/100) × portfolio.equity` that `_create_order` would perform
if `runner.py` imported `Decimal` — the behaviour its own test
(`test_runner.py`, `test_templates_merge_with_overrides`) asserts. -/
def createOrderIntended (cfg : OrderCfg) (pf : Portfolio) (sym : String) : NewOrder :=
  let quantity :=
    if truthyQ cfg.quantityPct then
      let equity := if pf.equity = 0 then pf.startingBalance else pf.equity
      some (qOr cfg.quantityPct 0 / 100 * equity)
    else cfg.quantity
  { side := cfg.side, orderType := cfg.orderType,
    limitPrice := cfg.limitPrice, stopPrice := cfg.stopPrice,
    tif := cfg.tif, quantity := quantity, symbol := sym, status := Status.new }

/-! ## Claims -/

/-- Order-chain propagation touches only order rows. -/
theorem handleParentChild_portfolio (st : State) (o : Order) :
    (handleParentChild st o).portfolio = st.portfolio := rfl

theorem handleParentChild_positions (st : State) (o : Order) :
    (handleParentChild st o).positions = st.positions := rfl

/-- C1: for every portfolio, after every completed fill-application
transaction (`_apply_fill`, covering both sides and both the
position-exists and position-missing paths), the portfolio's equity equals
its cash balance plus the sum of `market_value` over all of its positions. -/
theorem c1_equity_eq_cash_plus_market_value (cfg : EngineCfg) (st : State)
    (o : Order) (r : FillResult) :
    (applyFill cfg st o r).portfolio.equity =
      (applyFill cfg st o r).portfolio.cashBalance +
        (((applyFill cfg st o r).positions.map (fun p => p.marketValue)).sum) := by
  rcases hL : applyFillLedger st o (effPrice cfg o.side r.price) r.quantity
      (r.quantity * cfg.feesPerShare + cfg.flatCommission + r.fees) with
    ⟨cash, positions, entryAvg⟩
  simp only [applyFill, hL, handleParentChild_portfolio, handleParentChild_positions,
    recalcTotals]
  split <;> simp

/-- Scenario D inputs for C3: entry template
`{side: buy, order_type: limit, limit_price: 105, quantity_pct: 10}` against
a portfolio with equity 100000. -/
def scenarioDCfg : OrderCfg :=
  { side := some .buy, orderType := some .limit, limitPrice := some 105,
    quantityPct := some 10 }

def scenarioDPortfolio : Portfolio := {}

/-- C3 (code bug in `runner.py`): on the Scenario D template the
`quantity_pct` branch of `_create_order` is taken, and — because `runner.py`
never imports `Decimal` — it raises `NameError` instead of creating the
order; the intended resolution (per §4.7 and the repository's own test
`test_runner.py::test_templates_merge_with_overrides`) would produce one
order with quantity `(10/100)·100000 = 10000` and limit price 105. -/
theorem c3_quantity_pct_name_error :
    createOrder scenarioDCfg scenarioDPortfolio "AAPL" =
        Except.error RunnerError.nameErrorDecimal ∧
      (createOrderIntended scenarioDCfg scenarioDPortfolio "AAPL").quantity =
        some 10000 ∧
      (createOrderIntended scenarioDCfg scenarioDPortfolio "AAPL").limitPrice =
        some 105 := by
  refine ⟨rfl, ?_, rfl⟩
  norm_num [createOrderIntended, scenarioDCfg, scenarioDPortfolio, truthyQ, qOr]

/-- The positions component of a fill application is exactly the ledger
branch's output. -/
theorem applyFill_positions (cfg : EngineCfg) (st : State) (o : Order) (r : FillResult) :
    (applyFill cfg st o r).positions =
      (applyFillLedger st o (effPrice cfg o.side r.price) r.quantity
        (r.quantity * cfg.feesPerShare + cfg.flatCommission + r.fees)).2.1 := by
  rcases hL : applyFillLedger st o (effPrice cfg o.side r.price) r.quantity
      (r.quantity * cfg.feesPerShare + cfg.flatCommission + r.fees) with
    ⟨cash, positions, entryAvg⟩
  simp only [applyFill, hL, handleParentChild_positions]

theorem refreshPosition_symbol (p : Position) (c : ℚ) :
    (refreshPosition p c).symbol = p.symbol := rfl

/-- Concrete inputs for the C10 counterexample: a sell market fill on a
portfolio that holds no positions at all. -/
def c10Order : Order :=
  { id := 1, symbol := "AAPL", side := .sell, orderType := .market,
    quantity := some 5 }

def c10Fill : FillResult :=
  { filled := true, quantity := 5, price := 100, remaining := 0 }

/-- C10 counterexample: after applying a sell fill on a (portfolio, symbol)
pair with no existing Position, still no Position record exists — the claim
fails for the sell side (`_apply_fill` catches `DoesNotExist` and sets
`position = None`). -/
theorem c10_counterexample :
    (applyFill {} {} c10Order c10Fill).positions = [] := by
  decide

/-- C10 amended: a buy fill always leaves a Position record for the
(portfolio, symbol) pair, creating it if missing; a sell fill applied when
no Position exists for the pair leaves no Position (only cash, the trade
record and the order are updated). -/
theorem c10_amended (cfg : EngineCfg) (st : State) (o : Order) (r : FillResult) :
    (o.side = .buy →
      (((applyFill cfg st o r).positions.find? fun p => p.symbol = o.symbol.toUpper).isSome)) ∧
    (o.side = .sell →
      (st.positions.find? fun p => p.symbol = o.symbol.toUpper) = none →
      ((applyFill cfg st o r).positions.find? fun p => p.symbol = o.symbol.toUpper) = none) := by
  constructor
  · intro hbuy
    rw [applyFill_positions]
    simp only [applyFillLedger, hbuy]
    rcases hF : st.positions.find? fun p => p.symbol = o.symbol.toUpper with _ | p0
    · simp only [hF]
      rw [List.find?_isSome]
      refine ⟨_, List.mem_append_right _ (List.mem_singleton_self _), ?_⟩
      apply decide_eq_true
      rw [refreshPosition_symbol]
      split <;> rfl
    · simp only [hF]
      rw [List.find?_isSome]
      have hmem := List.mem_of_find?_eq_some hF
      have hsym : p0.symbol = o.symbol.toUpper := by
        have := List.find?_some hF
        simpa using this
      refine ⟨_, List.mem_map_of_mem _ hmem, ?_⟩
      apply decide_eq_true
      rw [if_pos hsym, refreshPosition_symbol]
      split <;> exact hsym
  · intro hsell hF
    rw [applyFill_positions]
    have hside : o.side ≠ .buy := by simp [hsell]
    simp only [applyFillLedger, if_neg hside, hF]

/-! ### C7: fail-open condition evaluation -/

/-- The "required data is unavailable" situations of C7/P8, by condition
type: missing threshold value, missing or unparsable timestamp, null
indicator value, a provider failure while fetching another symbol's quote
(the cross-symbol base quote or the compare-symbol quote), or a missing
quote volume for a `volume` condition. -/
def condDataUnavailable (env : Env) (sym : String) (quote : Quote) : Cond → Bool
  | .cnone => false
  | .price _ value => value = none
  | .time ts => ts = none ∨ ts = some none
  | .indicator payload _ value =>
      env.indicatorValue sym payload = none ∨ value = none
  | .cross_symbol symbol _ _ compareSymbol =>
      (symbol.getD sym ≠ sym ∧ env.getQuote (symbol.getD sym) = none) ∨
        (truthyS compareSymbol ∧ env.getQuote (compareSymbol.getD "") = none)
  | .volume _ value basis window period interval =>
      if basis = some "average" then
        env.indicatorValue sym
          { indicator := some "volume", window := some (window.getD 20),
            period := some (period.getD "3mo"),
            interval := some (interval.getD "1d") } = none ∨ value = none
      else quote.volume = none ∨ value = none
  | .and_group _ => false
  | .or_group _ => false

/-- Fail-open, stated over an arbitrary condition value. -/
theorem satisfiedCond_of_dataUnavailable (env : Env) (sym : String)
    (quote : Quote) (now : ℤ) (c : Cond)
    (h : condDataUnavailable env sym quote c = true) :
    satisfiedCond env sym quote now c = true := by
  rcases c with _ | ⟨op, value⟩ | ts | ⟨payload, op, value⟩ |
      ⟨symbol, op, value, compareSymbol⟩ | ⟨op, value, basis, window, period, interval⟩ |
      conds | conds
  · rfl
  · simp only [condDataUnavailable, decide_eq_true_eq] at h
    simp [satisfiedCond, h]
  · simp only [condDataUnavailable, Bool.or_eq_true, decide_eq_true_eq] at h
    rcases h with h | h <;> simp [satisfiedCond, h]
  · simp only [condDataUnavailable, Bool.or_eq_true, decide_eq_true_eq] at h
    rcases h with h | h <;> simp only [satisfiedCond, h]
    rcases env.indicatorValue sym payload with _ | v <;> rfl
  · simp only [condDataUnavailable, Bool.or_eq_true, Bool.and_eq_true,
      decide_eq_true_eq] at h
    rcases h with ⟨hne, hq⟩ | ⟨hcs, hq⟩
    · have hne' : ¬ (symbol.getD sym = sym) := by
        simpa using hne
      simp [satisfiedCond, if_neg hne', hq]
    · simp only [satisfiedCond]
      split
      · rfl
      · simp [hcs, hq]
  · simp only [condDataUnavailable] at h
    by_cases hb : basis = some "average"
    · rw [if_pos hb] at h
      simp only [Bool.or_eq_true, decide_eq_true_eq] at h
      simp only [satisfiedCond, if_pos hb]
      rcases h with h | h
      · simp only [h]
      · rw [h]
        cases env.indicatorValue sym
            { indicator := some "volume", source := none, window := some (window.getD 20),
              period := some (period.getD "3mo"), interval := some (interval.getD "1d"),
              timeframe := none, field := none } <;> rfl
    · rw [if_neg hb] at h
      simp only [Bool.or_eq_true, decide_eq_true_eq] at h
      simp only [satisfiedCond, if_neg hb]
      rcases h with h | h
      · simp only [h]
      · rw [h]
        cases quote.volume <;> rfl
  · simp [condDataUnavailable] at h
  · simp [condDataUnavailable] at h

/-- C7: for every order and quote, if the data the order's condition
requires is unavailable (missing threshold, missing/unparsable timestamp,
null indicator value, or a provider failure while fetching another symbol's
quote), `satisfied(order, quote, now)` returns true (fail-open). -/
theorem c7_fail_open (env : Env) (o : Order) (quote : Quote) (now : ℤ)
    (h : condDataUnavailable env o.symbol quote o.condition = true) :
    satisfiedOrder env o quote now = true :=
  satisfiedCond_of_dataUnavailable env o.symbol quote now o.condition h

/-- Witness for C7 at a concrete input: a `price` condition with no
threshold value evaluates to true. -/
def c7Env : Env :=
  { getQuote := fun _ => none, indicatorValue := fun _ _ => none }

def c7Order : Order :=
  { id := 2, symbol := "AAPL", side := .buy, orderType := .limit,
    condition := .price (some "gte") none }

theorem c7_fail_open_witness :
    satisfiedOrder c7Env c7Order { symbol := "AAPL", price := 100 } 0 = true :=
  c7_fail_open c7Env c7Order { symbol := "AAPL", price := 100 } 0 (by decide)

/-- Concrete buy order for the C10 witness. -/
def c10BuyOrder : Order :=
  { id := 3, symbol := "AAPL", side := .buy, orderType := .market,
    quantity := some 5 }

theorem c10_amended_witness :
    (((applyFill {} {} c10BuyOrder c10Fill).positions.find? fun p =>
        p.symbol = c10BuyOrder.symbol.toUpper).isSome) ∧
      ((applyFill {} {} c10Order c10Fill).positions.find? fun p =>
        p.symbol = c10Order.symbol.toUpper) = none :=
  ⟨(c10_amended {} {} c10BuyOrder c10Fill).1 rfl,
   (c10_amended {} {} c10Order c10Fill).2 rfl rfl⟩

/-! ### C8: iceberg / reserve cap -/

/-- The visible slice is capped by a positive reserve quantity. -/
theorem visibleSlice_fst_le (o : Order) (tq R : ℚ)
    (hR : o.reserveQuantity = some R) (hpos : 0 < R) :
    (visibleSlice o tq).1 ≤ R := by
  have hne : R ≠ 0 := ne_of_gt hpos
  have ht : truthyQ (some R) = true := by simp [truthyQ, hne]
  have hq : qOr (some R) 0 = R := by simp [qOr, hne]
  simp only [visibleSlice]
  by_cases h0 : tq - o.filledQuantity ≤ 0
  · rw [if_pos h0]
    exact hpos.le
  · rw [if_neg h0, hR, if_pos ht, hq]
    exact min_le_left _ _

/-- `_resolve_quantity` never returns more than a positive reserve. -/
theorem resolveQuantity_fst_le (o : Order) (price R : ℚ)
    (hR : o.reserveQuantity = some R) (hpos : 0 < R) :
    (resolveQuantity o price).1 ≤ R := by
  unfold resolveQuantity
  rcases hq : o.quantity with _ | tq
  · by_cases hn : truthyQ o.notional = true
    · rw [if_pos hn]
      exact visibleSlice_fst_le _ _ R hR hpos
    · rw [if_neg hn]
      exact hpos.le
  · exact visibleSlice_fst_le _ _ R hR hpos

theorem marketMaybeFill_qty_le (o : Order) (q : Quote) (R : ℚ) (fr : FillResult)
    (o' : Order) (hR : o.reserveQuantity = some R) (hpos : 0 < R)
    (h : marketMaybeFill o q = (some fr, o')) : fr.quantity ≤ R := by
  simp only [marketMaybeFill] at h
  repeat' split at h
  all_goals
    first
      | (rw [Prod.mk.injEq, Option.some.injEq] at h
         obtain ⟨h1, -⟩ := h
         subst h1
         exact resolveQuantity_fst_le o q.price R hR hpos)
      | simp at h

theorem limitMaybeFill_qty_le (o : Order) (q : Quote) (R : ℚ) (fr : FillResult)
    (o' : Order) (hR : o.reserveQuantity = some R) (hpos : 0 < R)
    (h : limitMaybeFill o q = (some fr, o')) : fr.quantity ≤ R := by
  simp only [limitMaybeFill] at h
  repeat' split at h
  all_goals
    first
      | (rw [Prod.mk.injEq, Option.some.injEq] at h
         obtain ⟨h1, -⟩ := h
         subst h1
         exact resolveQuantity_fst_le o q.price R hR hpos)
      | simp at h

theorem stopMaybeFill_qty_le (o : Order) (q : Quote) (R : ℚ) (fr : FillResult)
    (o' : Order) (hR : o.reserveQuantity = some R) (hpos : 0 < R)
    (h : stopMaybeFill o q = (some fr, o')) : fr.quantity ≤ R := by
  simp only [stopMaybeFill] at h
  repeat' split at h
  all_goals
    first
      | (rw [Prod.mk.injEq, Option.some.injEq] at h
         obtain ⟨h1, -⟩ := h
         subst h1
         exact resolveQuantity_fst_le o q.price R hR hpos)
      | simp at h

theorem stopLimitMaybeFill_qty_le (o : Order) (q : Quote) (R : ℚ) (fr : FillResult)
    (o' : Order) (hR : o.reserveQuantity = some R) (hpos : 0 < R)
    (h : stopLimitMaybeFill o q = (some fr, o')) : fr.quantity ≤ R := by
  simp only [stopLimitMaybeFill] at h
  repeat' split at h
  all_goals
    first
      | (rw [Prod.mk.injEq, Option.some.injEq] at h
         obtain ⟨h1, -⟩ := h
         subst h1
         exact resolveQuantity_fst_le o q.price R hR hpos)
      | simp at h

theorem trailingMaybeFill_qty_le (o : Order) (q : Quote) (R : ℚ) (fr : FillResult)
    (o' : Order) (hR : o.reserveQuantity = some R) (hpos : 0 < R)
    (h : trailingMaybeFill o q = (some fr, o')) : fr.quantity ≤ R := by
  simp only [trailingMaybeFill] at h
  repeat' split at h
  all_goals
    first
      | (rw [Prod.mk.injEq, Option.some.injEq] at h
         obtain ⟨h1, -⟩ := h
         subst h1
         exact resolveQuantity_fst_le o q.price R hR hpos)
      | simp at h

theorem trailingLimitMaybeFill_qty_le (o : Order) (q : Quote) (R : ℚ)
    (fr : FillResult) (o' : Order) (hR : o.reserveQuantity = some R) (hpos : 0 < R)
    (h : trailingLimitMaybeFill o q = (some fr, o')) : fr.quantity ≤ R := by
  simp only [trailingLimitMaybeFill] at h
  split at h
  next r heq =>
    have hr : r.quantity ≤ R :=
      trailingMaybeFill_qty_le o q R r (trailingMaybeFill o q).2 hR hpos
        (by rw [← heq])
    split at h
    · rw [Prod.mk.injEq, Option.some.injEq] at h
      obtain ⟨h1, -⟩ := h
      subst h1
      exact hr
    · rw [Prod.mk.injEq, Option.some.injEq] at h
      obtain ⟨h1, -⟩ := h
      subst h1
      exact hr
  next heq => simp at h

theorem sessionMaybeFill_qty_le (target : ℤ) (o : Order) (q : Quote) (now : ℤ)
    (R : ℚ) (fr : FillResult) (o' : Order) (hR : o.reserveQuantity = some R)
    (hpos : 0 < R) (h : sessionMaybeFill target o q now = (some fr, o')) :
    fr.quantity ≤ R := by
  simp only [sessionMaybeFill] at h
  split at h
  · exact marketMaybeFill_qty_le o q R fr o' hR hpos h
  · simp at h

theorem limitSessionMaybeFill_qty_le (target : ℤ) (o : Order) (q : Quote)
    (now : ℤ) (R : ℚ) (fr : FillResult) (o' : Order)
    (hR : o.reserveQuantity = some R) (hpos : 0 < R)
    (h : limitSessionMaybeFill target o q now = (some fr, o')) :
    fr.quantity ≤ R := by
  simp only [limitSessionMaybeFill] at h
  split at h
  · exact limitMaybeFill_qty_le o q R fr o' hR hpos h
  · simp at h

theorem peggedMaybeFill_qty_le (o : Order) (q : Quote) (R : ℚ) (fr : FillResult)
    (o' : Order) (hR : o.reserveQuantity = some R) (hpos : 0 < R)
    (h : peggedMaybeFill o q = (some fr, o')) : fr.quantity ≤ R := by
  simp only [peggedMaybeFill] at h
  refine limitMaybeFill_qty_le _ q R fr o' ?_ hpos h
  exact hR

theorem applyReserveCap_le (o : Order) (s rt R : ℚ)
    (hR : o.reserveQuantity = some R) (hpos : 0 < R) :
    applyReserveCap o s rt ≤ R := by
  have hne : R ≠ 0 := ne_of_gt hpos
  have ht : truthyQ (some R) = true := by simp [truthyQ, hne]
  have hq : qOr (some R) 0 = R := by simp [qOr, hne]
  simp only [applyReserveCap, hR, ht, if_true, hq]
  rw [max_le_iff]
  exact ⟨min_le_right _ _, hpos.le⟩

/-- `_resolve_total_quantity` persists the resolved quantity but changes no
other order field. -/
theorem resolveTotalQuantity_reserve (o : Order) (q : Quote) :
    (resolveTotalQuantity o q).2.reserveQuantity = o.reserveQuantity := by
  unfold resolveTotalQuantity
  split
  · rfl
  · split <;> rfl

theorem handleTwap_qty_le (o : Order) (params : AlgoParams) (q : Quote) (R : ℚ)
    (fr : FillResult) (hR : o.reserveQuantity = some R) (hpos : 0 < R)
    (h : (handleTwap o params q).1 = some fr) : fr.quantity ≤ R := by
  have hR2 : (resolveTotalQuantity o q).2.reserveQuantity = some R := by
    rw [resolveTotalQuantity_reserve]; exact hR
  simp only [handleTwap] at h
  split at h
  · simp at h
  · split at h
    · simp at h
    · simp only [Option.some.injEq] at h
      subst h
      exact applyReserveCap_le _ _ _ R hR2 hpos

theorem handleVwap_qty_le (o : Order) (params : AlgoParams) (q : Quote) (R : ℚ)
    (fr : FillResult) (hR : o.reserveQuantity = some R) (hpos : 0 < R)
    (h : (handleVwap o params q).1 = some fr) : fr.quantity ≤ R := by
  have hR2 : (resolveTotalQuantity o q).2.reserveQuantity = some R := by
    rw [resolveTotalQuantity_reserve]; exact hR
  simp only [handleVwap] at h
  split at h
  · simp at h
  · split at h
    · simp at h
    · simp only [Option.some.injEq] at h
      subst h
      exact applyReserveCap_le _ _ _ R hR2 hpos

theorem handlePov_qty_le (o : Order) (params : AlgoParams) (q : Quote) (R : ℚ)
    (fr : FillResult) (hR : o.reserveQuantity = some R) (hpos : 0 < R)
    (h : (handlePov o params q).1 = some fr) : fr.quantity ≤ R := by
  have hR2 : (resolveTotalQuantity o q).2.reserveQuantity = some R := by
    rw [resolveTotalQuantity_reserve]; exact hR
  simp only [handlePov] at h
  split at h
  · simp at h
  · split at h
    · simp at h
    · simp only [Option.some.injEq] at h
      subst h
      exact applyReserveCap_le _ _ _ R hR2 hpos

theorem algoMaybeFill_qty_le (o : Order) (q : Quote) (now : ℤ) (R : ℚ)
    (fr : FillResult) (o' : Order) (hR : o.reserveQuantity = some R) (hpos : 0 < R)
    (h : algoMaybeFill o q now = (some fr, o')) : fr.quantity ≤ R := by
  simp only [algoMaybeFill] at h
  split at h
  · simp at h
  · rw [Prod.mk.injEq] at h
    obtain ⟨h1, -⟩ := h
    rcases hot : o.orderType <;> rw [hot] at h1
    case algo_twap => exact handleTwap_qty_le o o.algoParams q R fr hR hpos h1
    case algo_vwap => exact handleVwap_qty_le o o.algoParams q R fr hR hpos h1
    case algo_pov => exact handlePov_qty_le o o.algoParams q R fr hR hpos h1
    all_goals simp at h1

/-- C8: for every order of any fillable type with a positive
`reserve_quantity = R` set, every single fill produced by the order's
handler has quantity at most `R` (market-family orders via
`_resolve_quantity`, algorithmic orders via `_apply_reserve_cap`). -/
theorem c8_reserve_caps_fill (o : Order) (q : Quote) (now : ℤ) (R : ℚ)
    (fr : FillResult) (o' : Order) (hR : o.reserveQuantity = some R)
    (hpos : 0 < R) (h : maybeFill o q now = (some fr, o')) : fr.quantity ≤ R := by
  unfold maybeFill at h
  rcases hot : o.orderType <;> rw [hot] at h
  case market => exact marketMaybeFill_qty_le o q R fr o' hR hpos h
  case limit => exact limitMaybeFill_qty_le o q R fr o' hR hpos h
  case hidden_limit => exact limitMaybeFill_qty_le o q R fr o' hR hpos h
  case iceberg => exact limitMaybeFill_qty_le o q R fr o' hR hpos h
  case stop => exact stopMaybeFill_qty_le o q R fr o' hR hpos h
  case stop_limit => exact stopLimitMaybeFill_qty_le o q R fr o' hR hpos h
  case trailing_amount => exact trailingMaybeFill_qty_le o q R fr o' hR hpos h
  case trailing_percent => exact trailingMaybeFill_qty_le o q R fr o' hR hpos h
  case trailing_limit => exact trailingLimitMaybeFill_qty_le o q R fr o' hR hpos h
  case market_open => exact sessionMaybeFill_qty_le marketOpenSec o q now R fr o' hR hpos h
  case market_close => exact sessionMaybeFill_qty_le marketCloseSec o q now R fr o' hR hpos h
  case limit_open => exact limitSessionMaybeFill_qty_le marketOpenSec o q now R fr o' hR hpos h
  case limit_close => exact limitSessionMaybeFill_qty_le marketCloseSec o q now R fr o' hR hpos h
  case pegged_mid => exact peggedMaybeFill_qty_le o q R fr o' hR hpos h
  case pegged_primary => exact peggedMaybeFill_qty_le o q R fr o' hR hpos h
  case algo_twap => exact algoMaybeFill_qty_le o q now R fr o' hR hpos h
  case algo_vwap => exact algoMaybeFill_qty_le o q now R fr o' hR hpos h
  case algo_pov => exact algoMaybeFill_qty_le o q now R fr o' hR hpos h
  all_goals simp at h

/-- C8 witness: a limit buy order for 100 shares with reserve 20 at limit
150 against a 140 quote fills exactly the 20-share visible slice. -/
def c8Order : Order :=
  { id := 4, symbol := "AAPL", side := .buy, orderType := .limit,
    quantity := some 100, reserveQuantity := some 20, limitPrice := some 150 }

theorem c8_reserve_caps_fill_witness :
    ({ filled := true, quantity := 20, price := 150,
       remaining := 80 } : FillResult).quantity ≤ 20 :=
  c8_reserve_caps_fill c8Order { symbol := "AAPL", price := 140 } 0 20
    { filled := true, quantity := 20, price := 150, remaining := 80 }
    c8Order rfl (by norm_num)
    (by
      simp only [maybeFill, c8Order, limitMaybeFill, isOpen, resolveQuantity,
        visibleSlice, truthyQ, qOr]
      norm_num
      intro hc
      simp at hc)

/-! ### C4: algorithmic order scheduling -/

/-- `_resolve_total_quantity` changes nothing but `quantity`. -/
theorem resolveTotalQuantity_orderType (o : Order) (q : Quote) :
    (resolveTotalQuantity o q).2.orderType = o.orderType := by
  unfold resolveTotalQuantity
  split
  · rfl
  · split <;> rfl

theorem resolveTotalQuantity_sliceIndex (o : Order) (q : Quote) :
    (resolveTotalQuantity o q).2.algoSliceIndex = o.algoSliceIndex := by
  unfold resolveTotalQuantity
  split
  · rfl
  · split <;> rfl

/-- Each algo sub-handler returns the (possibly quantity-resolved) order
unchanged otherwise. -/
theorem handleTwap_snd (o : Order) (params : AlgoParams) (q : Quote) :
    (handleTwap o params q).2 = (resolveTotalQuantity o q).2 := by
  simp only [handleTwap]
  split
  · rfl
  · split <;> rfl

theorem handleVwap_snd (o : Order) (params : AlgoParams) (q : Quote) :
    (handleVwap o params q).2 = (resolveTotalQuantity o q).2 := by
  simp only [handleVwap]
  split
  · rfl
  · split <;> rfl

theorem handlePov_snd (o : Order) (params : AlgoParams) (q : Quote) :
    (handlePov o params q).2 = (resolveTotalQuantity o q).2 := by
  simp only [handlePov]
  split
  · rfl
  · split <;> rfl

/-- `_update_schedule` always reschedules `algo_next_run_at`. -/
theorem updateSchedule_nextRun (o : Order) (params : AlgoParams) (now : ℤ)
    (result : Option FillResult) :
    (updateSchedule o params now result).algoNextRunAt =
      some (now + intervalSeconds params o.orderType) := by
  simp only [updateSchedule]
  repeat' split
  all_goals rfl

/-- `_update_schedule` advances `algo_slice_index` exactly when the
invocation produced a fill. -/
theorem updateSchedule_sliceIndex (o : Order) (params : AlgoParams) (now : ℤ)
    (result : Option FillResult) :
    (updateSchedule o params now result).algoSliceIndex =
      o.algoSliceIndex +
        (match result with
         | some r => if r.filled then 1 else 0
         | none => 0) := by
  simp only [updateSchedule]
  repeat' split
  all_goals simp

/-- C4 counterexample: a due `algo_pov` order whose quote volume is 0 —
the handler is invoked (it even reschedules `algo_next_run_at`), produces no
fill, and `algo_slice_index` stays 0, contradicting "every invocation
advances `algo_slice_index` ... whether or not that invocation produces a
fill". -/
def c4Order : Order :=
  { id := 5, symbol := "AAPL", side := .buy, orderType := .algo_pov,
    quantity := some 50 }

def c4Quote : Quote := { symbol := "AAPL", price := 100, volume := some 0 }

theorem c4_counterexample :
    (algoMaybeFill c4Order c4Quote 0).1 = none ∧
      (algoMaybeFill c4Order c4Quote 0).2.algoSliceIndex = 0 ∧
      (algoMaybeFill c4Order c4Quote 0).2.algoNextRunAt = some 60 := by
  refine ⟨?_, ?_, ?_⟩ <;>
    simp [algoMaybeFill, c4Order, c4Quote, handlePov, resolveTotalQuantity,
      truthyQ, qOr, applyReserveCap, updateSchedule, intervalSeconds, qTrunc]

/-- C4 amended: an invocation of the algorithmic handler before
`algo_next_run_at` changes nothing and produces no fill; a due invocation
always reschedules `algo_next_run_at` to now + interval, and advances
`algo_slice_index` exactly when that invocation produces a fill. -/
theorem c4_amended (o : Order) (q : Quote) (now : ℤ)
    (halgo : o.orderType = .algo_twap ∨ o.orderType = .algo_vwap ∨
      o.orderType = .algo_pov) :
    (∀ t, o.algoNextRunAt = some t → now < t →
      algoMaybeFill o q now = (none, o)) ∧
    ((o.algoNextRunAt = none ∨ ∃ t, o.algoNextRunAt = some t ∧ ¬ now < t) →
      (algoMaybeFill o q now).2.algoNextRunAt =
        some (now + intervalSeconds o.algoParams o.orderType) ∧
      (algoMaybeFill o q now).2.algoSliceIndex =
        o.algoSliceIndex +
          (match (algoMaybeFill o q now).1 with
           | some r => if r.filled then 1 else 0
           | none => 0)) := by
  constructor
  · intro t ht hlt
    simp only [algoMaybeFill, ht]
    rw [if_pos (by simpa using hlt)]
  · intro hdue
    have hnd : (match o.algoNextRunAt with
        | some t => decide (now < t)
        | none => false) = false := by
      rcases hdue with h | ⟨t, ht, hnlt⟩
      · rw [h]
      · rw [ht]
        simpa using hnlt
    simp only [algoMaybeFill, hnd, Bool.false_eq_true, if_false]
    rcases halgo with h | h | h <;> rw [h] <;> dsimp only <;> refine ⟨?_, ?_⟩
    · rw [updateSchedule_nextRun, handleTwap_snd, resolveTotalQuantity_orderType, h]
    · rw [updateSchedule_sliceIndex, handleTwap_snd, resolveTotalQuantity_sliceIndex]
    · rw [updateSchedule_nextRun, handleVwap_snd, resolveTotalQuantity_orderType, h]
    · rw [updateSchedule_sliceIndex, handleVwap_snd, resolveTotalQuantity_sliceIndex]
    · rw [updateSchedule_nextRun, handlePov_snd, resolveTotalQuantity_orderType, h]
    · rw [updateSchedule_sliceIndex, handlePov_snd, resolveTotalQuantity_sliceIndex]

/-- Scenario-E-style order for the C4 witness: TWAP, quantity 50,
reserve 7, 5 slices, 1-minute interval, not yet scheduled. -/
def c4wOrder : Order :=
  { id := 7, symbol := "AAPL", side := .buy, orderType := .algo_twap,
    quantity := some 50, reserveQuantity := some 7,
    algoParams := { slices := some 5, intervalMinutes := some 1 } }

theorem c4_amended_witness :
    (algoMaybeFill c4wOrder c4Quote 0).2.algoNextRunAt =
      some (0 + intervalSeconds c4wOrder.algoParams c4wOrder.orderType) :=
  ((c4_amended c4wOrder c4Quote 0 (Or.inl rfl)).2 (Or.inl rfl)).1

/-! ### C5: trailing stop reference -/

/-- Sell `trailing_amount` order, trail 5, no stop price, quantity 10. -/
def c5Order : Order :=
  { id := 6, symbol := "AAPL", side := .sell, orderType := .trailing_amount,
    trailAmount := some 5, quantity := some 10 }

def c5Quote1 : Quote := { symbol := "AAPL", price := 100 }

def c5Quote2 : Quote := { symbol := "AAPL", price := 90 }

/-- C5 counterexample: evaluated at price 100 the order does not fill and
persists `trail_ref = 100` into its notes; re-evaluating the updated order at
price 90 — a move of 10, twice the trail distance of 5, away from the
persisted reference — still does not fill, because `maybe_fill` reads the
reference from `order.stop_price or price` (here: the current price 90, so
the trigger is 85), never from the persisted note, and never tightens it. -/
theorem c5_counterexample :
    (trailingMaybeFill c5Order c5Quote1).1 = none ∧
      (trailingMaybeFill c5Order c5Quote1).2.notes.trailRef = some 100 ∧
      (trailingMaybeFill c5Order c5Quote1).2.stopPrice = none ∧
      (trailingMaybeFill (trailingMaybeFill c5Order c5Quote1).2 c5Quote2).1 =
        none := by
  refine ⟨?_, ?_, ?_, ?_⟩ <;>
    norm_num [trailingMaybeFill, c5Order, c5Quote1, c5Quote2, isOpen, truthyQ, qOr]

/-- C5 amended (sell side): a `trailing_amount` order's effective reference
price on each evaluation is `stop_price or price` — a fixed stop price when
one is set and truthy, otherwise the current quote price — not a running
reference.  The order fills at the quote price when
`price ≤ reference − trail`; otherwise it does not fill and the reference of
that same pass is persisted into `notes["trail_ref"]` while `stop_price` (the
value actually read back next pass) is left unchanged, so the reference never
tightens. -/
theorem c5_amended (o : Order) (q : Quote) (a : ℚ)
    (hopen : isOpen o.status = true) (htype : o.orderType = .trailing_amount)
    (hta : o.trailAmount = some a) (ha : a ≠ 0) (hsell : o.side = .sell) :
    (q.price ≤ qOr o.stopPrice q.price - a →
      (trailingMaybeFill o q).1 =
        some { filled := true, quantity := (resolveQuantity o q.price).1,
               price := q.price, remaining := (resolveQuantity o q.price).2.1 }) ∧
    (¬ q.price ≤ qOr o.stopPrice q.price - a →
      trailingMaybeFill o q =
        (none, { o with notes := { o.notes with
          trailRef := some (qOr o.stopPrice q.price) } })) := by
  have htv : truthyQ o.trailAmount = true := by rw [hta]; simp [truthyQ, ha]
  have hqa : qOr o.trailAmount 0 = a := by rw [hta]; simp [qOr, ha]
  have hcond : (o.orderType = OrderType.trailing_amount ∧
      truthyQ o.trailAmount = true) := ⟨htype, htv⟩
  constructor
  · intro hle
    simp only [trailingMaybeFill, hopen, if_true, if_pos hcond, hqa, hsell,
      if_pos rfl, if_pos hle]
  · intro hnle
    simp only [trailingMaybeFill, hopen, if_true, if_pos hcond, hqa, hsell,
      if_pos rfl, if_neg hnle]

/-- C5 witness: stop price 100 and trail 5; quote 94 ≤ 100 − 5 fills at the
quote price. -/
def c5wOrder : Order :=
  { id := 8, symbol := "AAPL", side := .sell, orderType := .trailing_amount,
    trailAmount := some 5, stopPrice := some 100, quantity := some 10 }

def c5wQuote : Quote := { symbol := "AAPL", price := 94 }

theorem c5_amended_witness :
    (trailingMaybeFill c5wOrder c5wQuote).1 =
      some { filled := true, quantity := (resolveQuantity c5wOrder c5wQuote.price).1,
             price := c5wQuote.price,
             remaining := (resolveQuantity c5wOrder c5wQuote.price).2.1 } :=
  (c5_amended c5wOrder c5wQuote 5 rfl rfl rfl (by norm_num) rfl).1
    (by norm_num [c5wOrder, c5wQuote, qOr])

/-! ### C9: average entry price -/

/-- Replacing the (unique-by-symbol) position row via the in-place `map`
keeps `find?` pointed at the replacement. -/
theorem find?_map_update (l : List Position) (sym : String) (p2 : Position)
    (h2 : p2.symbol = sym) (p0 : Position)
    (hF : l.find? (fun p => p.symbol = sym) = some p0) :
    (l.map fun x => if x.symbol = sym then p2 else x).find?
        (fun p => p.symbol = sym) = some p2 := by
  rw [List.find?_map]
  have hpred : ((fun p : Position => decide (p.symbol = sym)) ∘
      fun x : Position => if x.symbol = sym then p2 else x) =
      fun p : Position => decide (p.symbol = sym) := by
    funext x
    by_cases hx : x.symbol = sym
    · simp [hx, h2]
    · simp [hx]
  rw [hpred, hF]
  have hp0 : p0.symbol = sym := by simpa using List.find?_some hF
  simp [hp0]

/-- A buy fill on an existing position updates quantity and weighted-average
entry price. -/
theorem applyFill_buy_existing (cfg : EngineCfg) (st : State) (o : Order)
    (r : FillResult) (p0 : Position) (hbuy : o.side = .buy)
    (hF : st.positions.find? (fun p => p.symbol = o.symbol.toUpper) = some p0)
    (hq : 0 < p0.quantity + r.quantity) :
    ((applyFill cfg st o r).positions.find?
        (fun p => p.symbol = o.symbol.toUpper)).map
        (fun p => (p.quantity, p.avgPrice)) =
      some (p0.quantity + r.quantity,
        (p0.quantity * p0.avgPrice + r.quantity * effPrice cfg o.side r.price) /
          (p0.quantity + r.quantity)) := by
  have hsym : p0.symbol = o.symbol.toUpper := by simpa using List.find?_some hF
  rw [applyFill_positions]
  simp only [applyFillLedger, hbuy, hF, gt_iff_lt, eq_true hq, if_true, reduceIte]
  rw [find?_map_update _ _ _ (by exact hsym) p0 hF]
  rfl

/-- A buy fill with no existing position creates one whose average price is
the effective fill price. -/
theorem applyFill_buy_create (cfg : EngineCfg) (st : State) (o : Order)
    (r : FillResult) (hbuy : o.side = .buy)
    (hF : st.positions.find? (fun p => p.symbol = o.symbol.toUpper) = none)
    (hq : 0 < r.quantity) :
    ((applyFill cfg st o r).positions.find?
        (fun p => p.symbol = o.symbol.toUpper)).map
        (fun p => (p.quantity, p.avgPrice)) =
      some (r.quantity, effPrice cfg o.side r.price) := by
  have h0 : (0 : ℚ) < 0 + r.quantity := by simpa using hq
  rw [applyFill_positions]
  simp only [applyFillLedger, hbuy, hF, gt_iff_lt, eq_true h0, if_true, reduceIte]
  rw [List.find?_append, hF]
  simp only [Option.none_or]
  rw [List.find?_cons_of_pos _ (by simp [refreshPosition])]
  simp only [Option.map_some', Option.some.injEq, Prod.mk.injEq, refreshPosition]
  constructor
  · exact zero_add r.quantity
  · rw [zero_mul, zero_add, zero_add, mul_div_cancel_left₀ _ (ne_of_gt hq)]

/-- A sell fill never changes the stored average entry price. -/
theorem applyFill_sell_avg (cfg : EngineCfg) (st : State) (o : Order)
    (r : FillResult) (hsell : o.side = .sell) :
    ((applyFill cfg st o r).positions.find?
        (fun p => p.symbol = o.symbol.toUpper)).map (fun p => p.avgPrice) =
      (st.positions.find? (fun p => p.symbol = o.symbol.toUpper)).map
        (fun p => p.avgPrice) := by
  rw [applyFill_positions]
  have hs : ¬ (o.side = Side.buy) := by simp [hsell]
  rcases hF : st.positions.find? (fun p => p.symbol = o.symbol.toUpper) with _ | p0
  · simp only [applyFillLedger, if_neg hs, hF]
  · have hsym : p0.symbol = o.symbol.toUpper := by simpa using List.find?_some hF
    simp only [applyFillLedger, if_neg hs, hF]
    rw [find?_map_update _ _ _ (by exact hsym) p0 hF]
    rfl

/-- Iterated fill application with a fixed order object.  (The position
mutation of `_apply_fill` reads the order only through its side and symbol,
neither of which changes between the fills of one order.) -/
def applyFills (cfg : EngineCfg) (st : State) (o : Order)
    (rs : List FillResult) : State :=
  rs.foldl (fun s r => applyFill cfg s o r) st

theorem c9_aux (cfg : EngineCfg) (o : Order) (hbuy : o.side = .buy) :
    ∀ (rs : List FillResult) (st : State) (Q S : ℚ), 0 < Q →
      (∀ r ∈ rs, 0 < r.quantity) →
      ((st.positions.find? fun p => p.symbol = o.symbol.toUpper).map
        fun p => (p.quantity, p.avgPrice)) = some (Q, S / Q) →
      (((applyFills cfg st o rs).positions.find? fun p =>
          p.symbol = o.symbol.toUpper).map fun p => (p.quantity, p.avgPrice)) =
        some (Q + (rs.map (fun r => r.quantity)).sum,
          (S + (rs.map fun r => r.quantity * effPrice cfg o.side r.price).sum) /
            (Q + (rs.map (fun r => r.quantity)).sum))
  | [], st, Q, S, hQ, hrs, hfind => by simpa [applyFills] using hfind
  | r :: rs, st, Q, S, hQ, hrs, hfind => by
    obtain ⟨p0, hF, hp⟩ : ∃ p0, (st.positions.find? fun p =>
        p.symbol = o.symbol.toUpper) = some p0 ∧ (p0.quantity, p0.avgPrice) = (Q, S / Q) := by
      rcases hFa : st.positions.find? fun p => p.symbol = o.symbol.toUpper with _ | p0
      · rw [hFa] at hfind
        simp at hfind
      · rw [hFa] at hfind
        simp only [Option.map_some', Option.some.injEq] at hfind
        exact ⟨p0, hFa, hfind⟩
    have hq0 : p0.quantity = Q := congrArg Prod.fst hp
    have ha0 : p0.avgPrice = S / Q := congrArg Prod.snd hp
    have hrq : 0 < r.quantity := hrs r (List.mem_cons_self r rs)
    have hQ' : 0 < Q + r.quantity := by positivity
    have hstep := applyFill_buy_existing cfg st o r p0 hbuy hF
      (by rw [hq0]; exact hQ')
    rw [hq0, ha0] at hstep
    have hS : Q * (S / Q) + r.quantity * effPrice cfg o.side r.price =
        S + r.quantity * effPrice cfg o.side r.price := by
      rw [mul_div_cancel₀ S (ne_of_gt hQ)]
    rw [hS] at hstep
    have ih := c9_aux cfg o hbuy rs (applyFill cfg st o r) (Q + r.quantity)
      (S + r.quantity * effPrice cfg o.side r.price) hQ'
      (fun x hx => hrs x (List.mem_cons_of_mem r hx)) hstep
    have hfold : applyFills cfg st o (r :: rs) =
        applyFills cfg (applyFill cfg st o r) o rs := rfl
    rw [hfold, ih]
    simp only [List.map_cons, List.sum_cons, Option.some.injEq, Prod.mk.injEq]
    exact ⟨by ring, by rw [add_assoc, add_assoc]⟩

/-- C9: starting from no position for the symbol, after any nonempty
sequence of buy fills with positive quantities the position's `avg_price`
equals the quantity-weighted mean `Σ(qty_i × price_i) / Σ qty_i` of the
(slippage-adjusted) fill prices, and its quantity is `Σ qty_i`; a reducing
sell fill leaves `avg_price` unchanged. -/
theorem c9_avg_price :
    (∀ (cfg : EngineCfg) (st : State) (o : Order) (r : FillResult)
      (rs : List FillResult), o.side = .buy →
      (st.positions.find? fun p => p.symbol = o.symbol.toUpper) = none →
      0 < r.quantity → (∀ x ∈ rs, 0 < x.quantity) →
      (((applyFills cfg st o (r :: rs)).positions.find? fun p =>
          p.symbol = o.symbol.toUpper).map fun p => (p.quantity, p.avgPrice)) =
        some ((((r :: rs).map fun x => x.quantity).sum),
          (((r :: rs).map fun x => x.quantity * effPrice cfg o.side x.price).sum) /
            (((r :: rs).map fun x => x.quantity).sum))) ∧
    (∀ (cfg : EngineCfg) (st : State) (o : Order) (r : FillResult),
      o.side = .sell →
      (((applyFill cfg st o r).positions.find? fun p =>
          p.symbol = o.symbol.toUpper).map fun p => p.avgPrice) =
        ((st.positions.find? fun p => p.symbol = o.symbol.toUpper).map
          fun p => p.avgPrice)) := by
  constructor
  · intro cfg st o r rs hbuy hF hrq hrs
    have hstep := applyFill_buy_create cfg st o r hbuy hF hrq
    have hstep' : (((applyFill cfg st o r).positions.find? fun p =>
        p.symbol = o.symbol.toUpper).map fun p => (p.quantity, p.avgPrice)) =
        some (r.quantity, (r.quantity * effPrice cfg o.side r.price) / r.quantity) := by
      rw [hstep, mul_div_cancel_left₀ _ (ne_of_gt hrq)]
    have ih := c9_aux cfg o hbuy rs (applyFill cfg st o r) r.quantity
      (r.quantity * effPrice cfg o.side r.price) hrq hrs hstep'
    have hfold : applyFills cfg st o (r :: rs) =
        applyFills cfg (applyFill cfg st o r) o rs := rfl
    rw [hfold, ih]
    simp only [List.map_cons, List.sum_cons]
  · intro cfg st o r hsell
    exact applyFill_sell_avg cfg st o r hsell

/-- C9 witness: two buy fills of 2 shares at 10 and 3 shares at 20 (no
slippage) give quantity 5 and the weighted mean 16. -/
def c9Order : Order :=
  { id := 9, symbol := "AAPL", side := .buy, orderType := .market,
    quantity := some 5 }

theorem c9_avg_price_witness :
    (((applyFills {} {} c9Order
        [{ filled := true, quantity := 2, price := 10 },
         { filled := true, quantity := 3, price := 20 }]).positions.find? fun p =>
        p.symbol = c9Order.symbol.toUpper).map fun p => (p.quantity, p.avgPrice)) =
      some (5, 16) := by
  have h := c9_avg_price.1 {} {} c9Order { filled := true, quantity := 2, price := 10 }
    [{ filled := true, quantity := 3, price := 20 }] rfl rfl (by norm_num)
    (by intro x hx; simp at hx; rw [hx]; norm_num)
  rw [h]
  norm_num [effPrice, slipMult]

/-! ### C6: bracket / OCO exclusivity -/

/-- Fill bookkeeping changes no identity or chain field of the order. -/
theorem bookkeepOrder_id (o : Order) (fp q : ℚ) :
    (bookkeepOrder o fp q).id = o.id := rfl

theorem bookkeepOrder_parentId (o : Order) (fp q : ℚ) :
    (bookkeepOrder o fp q).parentId = o.parentId := rfl

theorem bookkeepOrder_childRole (o : Order) (fp q : ℚ) :
    (bookkeepOrder o fp q).childRole = o.childRole := rfl

/-- The orders component of a fill application: the bookkept order is saved
and then order-chain propagation runs, inside the same transaction. -/
theorem applyFill_orders (cfg : EngineCfg) (st : State) (o : Order) (r : FillResult) :
    (applyFill cfg st o r).orders =
      handleParentChildOrders
        (updateOrders st.orders (bookkeepOrder o (effPrice cfg o.side r.price) r.quantity))
        (bookkeepOrder o (effPrice cfg o.side r.price) r.quantity) := by
  rcases hL : applyFillLedger st o (effPrice cfg o.side r.price) r.quantity
      (r.quantity * cfg.feesPerShare + cfg.flatCommission + r.fees) with
    ⟨cash, positions, entryAvg⟩
  simp only [applyFill, hL, handleParentChild]

/-- Membership in an `updateOrders` image comes from a source row. -/
theorem mem_updateOrders {l : List Order} {u x : Order}
    (hx : x ∈ updateOrders l u) : ∃ y ∈ l, x = if y.id = u.id then u else y := by
  unfold updateOrders at hx
  obtain ⟨y, hy, hxy⟩ := List.mem_map.mp hx
  exact ⟨y, hy, hxy.symm⟩

/-- The sibling-cancellation map cancels every row with the sibling id. -/
theorem cancel_trace (l2 : List Order) (pfin o : Order) (pid sid : ℕ)
    (hsp : sid ≠ pid) (hpfin : pfin.id = pid)
    (hz : ∀ z ∈ l2, z.id = sid → z.parentId = some pid ∧ z.id ≠ o.id ∧
      z.status ≠ Status.canceled ∧ z.status ≠ Status.filled) :
    ∀ x ∈ updateOrders (l2.map fun z =>
        if z.parentId = some pid ∧ z.id ≠ o.id ∧ z.status ≠ Status.canceled ∧
            z.status ≠ Status.filled then { z with status := Status.canceled }
        else z) pfin,
      x.id = sid → x.status = Status.canceled := by
  intro x hx hxid
  obtain ⟨y, hy, hxy⟩ := mem_updateOrders hx
  obtain ⟨z, hz2, hzy⟩ := List.mem_map.mp hy
  by_cases hyp : y.id = pfin.id
  · rw [if_pos hyp] at hxy
    rw [hxy] at hxid
    exact absurd (hxid.symm.trans hpfin) hsp
  · rw [if_neg hyp] at hxy
    subst hxy
    subst hzy
    by_cases hc : z.parentId = some pid ∧ z.id ≠ o.id ∧ z.status ≠ Status.canceled ∧
        z.status ≠ Status.filled
    · rw [if_pos hc]
    · rw [if_neg hc] at hxid ⊢
      exact absurd (hz z hz2 hxid) hc

/-- Core of C6 at the `_handle_parent_child` level: a filled childless order
whose parent is a bracket/otoco (or whose child role is tp/sl, or whose
parent is an oco) cancels every sibling row that is not already canceled or
filled. -/
theorem handleParentChildOrders_cancels (l : List Order) (o parent : Order)
    (pid sid : ℕ) (hop : o.parentId = some pid) (hsp : sid ≠ pid)
    (hnc : ∀ x ∈ l, x.parentId ≠ some o.id)
    (hparent : l.find? (fun x => x.id = pid) = some parent)
    (htype : parent.orderType = .bracket ∨ parent.orderType = .otoco ∨
      o.childRole = "tp" ∨ o.childRole = "sl" ∨ parent.orderType = .oco)
    (hs_all : ∀ x ∈ l, x.id = sid → x.parentId = some pid ∧ x.id ≠ o.id ∧
      x.status ≠ Status.canceled ∧ x.status ≠ Status.filled) :
    ∀ x ∈ handleParentChildOrders l o, x.id = sid → x.status = Status.canceled := by
  have hpid : parent.id = pid := by simpa using List.find?_some hparent
  have hfe : (l.filter fun x : Order => x.parentId = some o.id) = [] :=
    List.filter_eq_nil_iff.mpr (fun a ha => by simpa using hnc a ha)
  have hl2 : ∀ z ∈ updateOrders l { parent with notes := { parent.notes with
        events := parent.notes.events ++
          [ChainEvent.child_fill o.id o.childRole o.status] } },
      z.id = sid → z.parentId = some pid ∧ z.id ≠ o.id ∧
        z.status ≠ Status.canceled ∧ z.status ≠ Status.filled := by
    intro z hzm hzid
    obtain ⟨w, hw, hwz⟩ := mem_updateOrders hzm
    by_cases hwp : w.id = parent.id
    · rw [if_pos hwp] at hwz
      rw [hwz] at hzid
      exact absurd (hzid.symm.trans hpid) hsp
    · rw [if_neg hwp] at hwz
      rw [hwz] at hzid ⊢
      exact hs_all w hw hzid
  intro x hx hxid
  unfold handleParentChildOrders at hx
  rw [hfe] at hx
  rw [if_neg (by simp)] at hx
  rw [hop] at hx
  dsimp only at hx
  rw [hparent] at hx
  dsimp only at hx
  by_cases hb : parent.orderType = .bracket ∨ parent.orderType = .otoco ∨
      o.childRole = "tp" ∨ o.childRole = "sl"
  · rw [if_pos hb] at hx
    exact cancel_trace _ _ o pid sid hsp (by exact hpid) hl2 x hx hxid
  · rw [if_neg hb] at hx
    have hoco : parent.orderType = .oco := by tauto
    rw [if_pos hoco] at hx
    exact cancel_trace _ _ o pid sid hsp (by exact hpid) hl2 x hx hxid

/-- `find?` by id over an `updateOrders` image. -/
theorem find?_updateOrders_id (l : List Order) (u : Order) (i : ℕ) :
    (updateOrders l u).find? (fun x => x.id = i) =
      ((l.find? fun x => x.id = i).map fun x => if x.id = u.id then u else x) := by
  unfold updateOrders
  rw [List.find?_map]
  have hpred : ((fun x : Order => decide (x.id = i)) ∘ fun x : Order =>
      if x.id = u.id then u else x) = fun x : Order => decide (x.id = i) := by
    funext x
    simp only [Function.comp_apply]
    by_cases hx : x.id = u.id
    · rw [if_pos hx, ← hx]
    · rw [if_neg hx]
  rw [hpred]

/-- C6 (amended): when a childless child order of a bracket or otoco parent
(or any child with `child_role` tp or sl, or a child of an oco parent) has a
fill applied, every sibling row whose status is not already canceled/filled —
in particular every non-terminal sibling — is set to canceled by the same
`_apply_fill` transition; since `_apply_fill` is `@transaction.atomic`, the
propagation is part of the same atomic transaction as the fill (the
embedding models the transaction as this single all-or-nothing function).
The childlessness hypothesis `hnc` is necessary and is what the amendment
adds to the claim: `_handle_parent_child` returns immediately after
activating the filled order's own children, so a filled child that itself
has a child never cancels its siblings (see the counterexample). -/
theorem c6_bracket_exclusivity (cfg : EngineCfg) (st : State) (o parent : Order)
    (r : FillResult) (pid sid : ℕ)
    (hop : o.parentId = some pid) (hpo : pid ≠ o.id) (hsp : sid ≠ pid)
    (hnc : ∀ x ∈ st.orders, x.parentId ≠ some o.id)
    (hparent : st.orders.find? (fun x => x.id = pid) = some parent)
    (htype : parent.orderType = .bracket ∨ parent.orderType = .otoco ∨
      o.childRole = "tp" ∨ o.childRole = "sl" ∨ parent.orderType = .oco)
    (hs_all : ∀ x ∈ st.orders, x.id = sid → x.parentId = some pid ∧ x.id ≠ o.id ∧
      x.status ≠ Status.canceled ∧ x.status ≠ Status.filled) :
    ∀ x ∈ (applyFill cfg st o r).orders, x.id = sid → x.status = Status.canceled := by
  have hpid : parent.id = pid := by simpa using List.find?_some hparent
  rw [applyFill_orders]
  set o2 := bookkeepOrder o (effPrice cfg o.side r.price) r.quantity with ho2
  have ho2id : o2.id = o.id := rfl
  have ho2p : o2.parentId = o.parentId := rfl
  have ho2c : o2.childRole = o.childRole := rfl
  refine handleParentChildOrders_cancels _ o2 parent pid sid
    (ho2p.trans hop) hsp ?_ ?_ ?_ ?_
  · intro x hxm
    obtain ⟨y, hy, hxy⟩ := mem_updateOrders hxm
    by_cases hyo : y.id = o2.id
    · rw [if_pos hyo] at hxy
      rw [hxy, ho2p, hop, ho2id]
      exact fun hcon => hpo (Option.some.inj hcon)
    · rw [if_neg hyo] at hxy
      rw [hxy, ho2id]
      exact hnc y hy
  · rw [find?_updateOrders_id, hparent, Option.map_some',
      if_neg (by rw [hpid, ho2id]; exact hpo)]
  · rw [ho2c]
    exact htype
  · intro x hxm hxid
    obtain ⟨y, hy, hxy⟩ := mem_updateOrders hxm
    by_cases hyo : y.id = o2.id
    · rw [if_pos hyo] at hxy
      rw [hxy, ho2id] at hxid
      have hyid : y.id = sid := by rw [hyo, ho2id, hxid]
      exact absurd (by rw [hyo, ho2id] : y.id = o.id) (hs_all y hy hyid).2.1
    · rw [if_neg hyo] at hxy
      rw [hxy]
      rw [hxy] at hxid
      exact hs_all y hy hxid

/-- Concrete bracket family for the C6 witness: parent 1 (bracket) with
take-profit child 2 and stop-loss sibling 3. -/
def c6Parent : Order :=
  { id := 1, symbol := "MSFT", side := .buy, orderType := .bracket,
    status := .filled, quantity := some 5 }

def c6Child : Order :=
  { id := 2, symbol := "MSFT", side := .sell, orderType := .limit,
    parentId := some 1, childRole := "tp", status := .working,
    quantity := some 5, limitPrice := some 350 }

def c6Sibling : Order :=
  { id := 3, symbol := "MSFT", side := .sell, orderType := .stop,
    parentId := some 1, childRole := "sl", status := .working,
    quantity := some 5, stopPrice := some 280 }

def c6State : State := { orders := [c6Parent, c6Child, c6Sibling] }

def c6Fill : FillResult :=
  { filled := true, quantity := 5, price := 350, remaining := 0 }

theorem c6_bracket_exclusivity_witness :
    ((applyFill {} c6State c6Child c6Fill).orders.find? fun x : Order =>
        x.id = 3).all (fun x : Order => decide (x.status = Status.canceled)) =
      true := by
  rcases hr : (applyFill {} c6State c6Child c6Fill).orders.find?
      fun x : Order => x.id = 3 with _ | x
  · rfl
  · have hmem := List.mem_of_find?_eq_some hr
    have hid : x.id = 3 := by simpa using List.find?_some hr
    have hc := c6_bracket_exclusivity {} c6State c6Child c6Parent c6Fill 1 3 rfl
      (by decide) (by decide) (by decide) rfl (Or.inl rfl) (by decide) x hmem hid
    simp [Option.all, hc]

/-- The same bracket family with one extra row: the take-profit child 2 now
has a child of its own (order 4; `parent` is a writable self-referential FK
with no anti-nesting validation, so this store is reachable). -/
def c6Grandchild : Order :=
  { id := 4, symbol := "MSFT", side := .buy, orderType := .market,
    parentId := some 2, status := .new, quantity := some 1 }

def c6nState : State :=
  { orders := [c6Parent, c6Child, c6Sibling, c6Grandchild] }

/-- C6: refuted as stated.  `_handle_parent_child` begins with
`if order.children.exists(): … return`, so when the filled child itself has
a child the early return activates the grandchild and never reaches the
sibling cancellation: in a bracket family (parent 1, take-profit child 2
with its own child 4, stop-loss sibling 3), applying the fill to child 2
leaves the non-terminal sibling 3 in status `working`, not `canceled` —
contradicting the claim's unconditional "every sibling child whose status is
not already terminal is set to canceled". -/
theorem c6_counterexample :
    (((applyFill {} c6nState c6Child c6Fill).orders.find? fun x : Order =>
        x.id = 3).map fun x : Order => x.status) = some Status.working := by
  have hbk : bookkeepOrder c6Child (effPrice {} c6Child.side c6Fill.price)
      c6Fill.quantity =
      { c6Child with
        filledQuantity := 5, averageFillPrice := some 350,
        status := Status.filled } := by
    norm_num [bookkeepOrder, effPrice, slipMult, c6Child, c6Fill, truthyQ, qOr]
  rw [applyFill_orders, hbk]
  decide

/-! ### C2: IOC/FOK terminal transitions -/

/-- Every handler leaves the order's identity and time-in-force unchanged. -/
theorem resolveQuantity_pres (o : Order) (p : ℚ) :
    (resolveQuantity o p).2.2.id = o.id ∧ (resolveQuantity o p).2.2.tif = o.tif := by
  unfold resolveQuantity
  split
  · exact ⟨rfl, rfl⟩
  · split <;> exact ⟨rfl, rfl⟩

theorem marketMaybeFill_pres (o : Order) (q : Quote) :
    ((marketMaybeFill o q).2).id = o.id ∧ ((marketMaybeFill o q).2).tif = o.tif := by
  simp only [marketMaybeFill]
  repeat' split
  all_goals first
    | exact ⟨rfl, rfl⟩
    | exact resolveQuantity_pres o q.price

theorem limitMaybeFill_pres (o : Order) (q : Quote) :
    ((limitMaybeFill o q).2).id = o.id ∧ ((limitMaybeFill o q).2).tif = o.tif := by
  simp only [limitMaybeFill]
  repeat' split
  all_goals first
    | exact ⟨rfl, rfl⟩
    | exact resolveQuantity_pres o q.price

theorem stopMaybeFill_pres (o : Order) (q : Quote) :
    ((stopMaybeFill o q).2).id = o.id ∧ ((stopMaybeFill o q).2).tif = o.tif := by
  simp only [stopMaybeFill]
  repeat' split
  all_goals first
    | exact ⟨rfl, rfl⟩
    | exact resolveQuantity_pres o q.price

theorem stopLimitMaybeFill_pres (o : Order) (q : Quote) :
    ((stopLimitMaybeFill o q).2).id = o.id ∧
      ((stopLimitMaybeFill o q).2).tif = o.tif := by
  simp only [stopLimitMaybeFill]
  repeat' split
  all_goals first
    | exact ⟨rfl, rfl⟩
    | exact resolveQuantity_pres o q.price

theorem trailingMaybeFill_pres (o : Order) (q : Quote) :
    ((trailingMaybeFill o q).2).id = o.id ∧
      ((trailingMaybeFill o q).2).tif = o.tif := by
  simp only [trailingMaybeFill]
  repeat' split
  all_goals first
    | exact ⟨rfl, rfl⟩
    | exact resolveQuantity_pres o q.price

theorem trailingLimitMaybeFill_pres (o : Order) (q : Quote) :
    ((trailingLimitMaybeFill o q).2).id = o.id ∧
      ((trailingLimitMaybeFill o q).2).tif = o.tif := by
  simp only [trailingLimitMaybeFill]
  repeat' split
  all_goals exact trailingMaybeFill_pres o q

theorem sessionMaybeFill_pres (target : ℤ) (o : Order) (q : Quote) (now : ℤ) :
    ((sessionMaybeFill target o q now).2).id = o.id ∧
      ((sessionMaybeFill target o q now).2).tif = o.tif := by
  simp only [sessionMaybeFill]
  split
  · exact marketMaybeFill_pres o q
  · exact ⟨rfl, rfl⟩

theorem limitSessionMaybeFill_pres (target : ℤ) (o : Order) (q : Quote) (now : ℤ) :
    ((limitSessionMaybeFill target o q now).2).id = o.id ∧
      ((limitSessionMaybeFill target o q now).2).tif = o.tif := by
  simp only [limitSessionMaybeFill]
  split
  · exact limitMaybeFill_pres o q
  · exact ⟨rfl, rfl⟩

theorem peggedMaybeFill_pres (o : Order) (q : Quote) :
    ((peggedMaybeFill o q).2).id = o.id ∧ ((peggedMaybeFill o q).2).tif = o.tif := by
  simp only [peggedMaybeFill]
  exact limitMaybeFill_pres _ q

theorem resolveTotalQuantity_pres (o : Order) (q : Quote) :
    (resolveTotalQuantity o q).2.id = o.id ∧
      (resolveTotalQuantity o q).2.tif = o.tif := by
  unfold resolveTotalQuantity
  split
  · exact ⟨rfl, rfl⟩
  · split <;> exact ⟨rfl, rfl⟩

theorem updateSchedule_pres (o : Order) (params : AlgoParams) (now : ℤ)
    (result : Option FillResult) :
    (updateSchedule o params now result).id = o.id ∧
      (updateSchedule o params now result).tif = o.tif := by
  simp only [updateSchedule]
  repeat' split
  all_goals exact ⟨rfl, rfl⟩

theorem algoMaybeFill_pres (o : Order) (q : Quote) (now : ℤ) :
    ((algoMaybeFill o q now).2).id = o.id ∧
      ((algoMaybeFill o q now).2).tif = o.tif := by
  simp only [algoMaybeFill]
  split
  · exact ⟨rfl, rfl⟩
  · rcases ho : o.orderType <;> dsimp only
    case algo_twap =>
      refine ⟨?_, ?_⟩
      · rw [(updateSchedule_pres _ _ _ _).1, handleTwap_snd,
          (resolveTotalQuantity_pres o q).1]
      · rw [(updateSchedule_pres _ _ _ _).2, handleTwap_snd,
          (resolveTotalQuantity_pres o q).2]
    case algo_vwap =>
      refine ⟨?_, ?_⟩
      · rw [(updateSchedule_pres _ _ _ _).1, handleVwap_snd,
          (resolveTotalQuantity_pres o q).1]
      · rw [(updateSchedule_pres _ _ _ _).2, handleVwap_snd,
          (resolveTotalQuantity_pres o q).2]
    case algo_pov =>
      refine ⟨?_, ?_⟩
      · rw [(updateSchedule_pres _ _ _ _).1, handlePov_snd,
          (resolveTotalQuantity_pres o q).1]
      · rw [(updateSchedule_pres _ _ _ _).2, handlePov_snd,
          (resolveTotalQuantity_pres o q).2]
    all_goals exact updateSchedule_pres o o.algoParams now none

theorem maybeFill_pres (o : Order) (q : Quote) (now : ℤ) :
    ((maybeFill o q now).2).id = o.id ∧ ((maybeFill o q now).2).tif = o.tif := by
  unfold maybeFill
  rcases ho : o.orderType <;> dsimp only
  case market => exact marketMaybeFill_pres o q
  case limit => exact limitMaybeFill_pres o q
  case hidden_limit => exact limitMaybeFill_pres o q
  case iceberg => exact limitMaybeFill_pres o q
  case stop => exact stopMaybeFill_pres o q
  case stop_limit => exact stopLimitMaybeFill_pres o q
  case trailing_amount => exact trailingMaybeFill_pres o q
  case trailing_percent => exact trailingMaybeFill_pres o q
  case trailing_limit => exact trailingLimitMaybeFill_pres o q
  case market_open => exact sessionMaybeFill_pres marketOpenSec o q now
  case market_close => exact sessionMaybeFill_pres marketCloseSec o q now
  case limit_open => exact limitSessionMaybeFill_pres marketOpenSec o q now
  case limit_close => exact limitSessionMaybeFill_pres marketCloseSec o q now
  case pegged_mid => exact peggedMaybeFill_pres o q
  case pegged_primary => exact peggedMaybeFill_pres o q
  case algo_twap => exact algoMaybeFill_pres o q now
  case algo_vwap => exact algoMaybeFill_pres o q now
  case algo_pov => exact algoMaybeFill_pres o q now
  all_goals exact ⟨rfl, rfl⟩

/-- Saving one row preserves an "all rows of this id are canceled" invariant,
provided the saved row itself satisfies it. -/
theorem updateOrders_stable {l : List Order} {u : Order} {sid : ℕ}
    (hu : u.id = sid → u.status = Status.canceled)
    (h : ∀ x ∈ l, x.id = sid → x.status = Status.canceled) :
    ∀ x ∈ updateOrders l u, x.id = sid → x.status = Status.canceled := by
  intro x hx hxid
  obtain ⟨y, hy, hxy⟩ := mem_updateOrders hx
  by_cases hyu : y.id = u.id
  · rw [if_pos hyu] at hxy
    rw [hxy] at hxid ⊢
    exact hu hxid
  · rw [if_neg hyu] at hxy
    rw [hxy] at hxid ⊢
    exact h y hy hxid

/-- A row map that preserves ids and keeps canceled rows canceled preserves
the invariant. -/
theorem map_stable {l : List Order} {g : Order → Order} {sid : ℕ}
    (hid : ∀ x, (g x).id = x.id)
    (hg : ∀ x, x.status = Status.canceled → (g x).status = Status.canceled)
    (h : ∀ x ∈ l, x.id = sid → x.status = Status.canceled) :
    ∀ x ∈ l.map g, x.id = sid → x.status = Status.canceled := by
  intro x hx hxid
  obtain ⟨y, hy, hxy⟩ := List.mem_map.mp hx
  rw [← hxy] at hxid ⊢
  rw [hid y] at hxid
  exact hg y (h y hy hxid)

/-- `_handle_parent_child` never revives a canceled row: it assigns chain
ids, activates `new` children, cancels siblings and appends note events, none
of which moves a `canceled` row out of `canceled` — as long as the filled
order being saved is not itself a row of the watched id. -/
theorem handleParentChildOrders_canceled_stable (l : List Order) (o : Order)
    (sid : ℕ) (hne : o.id ≠ sid)
    (h : ∀ x ∈ l, x.id = sid → x.status = Status.canceled) :
    ∀ x ∈ handleParentChildOrders l o, x.id = sid → x.status = Status.canceled := by
  intro x hx hxid
  unfold handleParentChildOrders at hx
  by_cases hch : (l.filter fun (y : Order) => y.parentId = some o.id).isEmpty = false
  · rw [if_pos hch] at hx
    refine updateOrders_stable ?_
      (map_stable ?_ ?_ (map_stable ?_ ?_ (updateOrders_stable ?_ h))) x hx hxid
    · exact fun hh => absurd hh hne
    · intro y
      dsimp only
      split <;> rfl
    · intro y hy
      dsimp only
      split
      · rename_i hc
        rw [hy] at hc
        simp at hc
      · exact hy
    · intro y
      dsimp only
      split <;> rfl
    · intro y hy
      dsimp only
      split <;> exact hy
    · exact fun hh => absurd hh hne
  · rw [if_neg hch] at hx
    rcases hop : o.parentId with _ | pid
    · rw [hop] at hx
      exact h x hx hxid
    · rw [hop] at hx
      dsimp only at hx
      rcases hpar : l.find? (fun y : Order => y.id = pid) with _ | parent
      · rw [hpar] at hx
        exact h x hx hxid
      · rw [hpar] at hx
        dsimp only at hx
        have hmem : parent ∈ l := List.mem_of_find?_eq_some hpar
        have hu : ∀ (n : Notes), ({ parent with notes := n } : Order).id = sid →
            ({ parent with notes := n } : Order).status = Status.canceled :=
          fun _ hh => h parent hmem hh
        have h1 : ∀ y ∈ updateOrders l { parent with notes := { parent.notes with
            events := parent.notes.events ++
              [ChainEvent.child_fill o.id o.childRole o.status] } },
            y.id = sid → y.status = Status.canceled :=
          updateOrders_stable (hu _) h
        by_cases hb1 : parent.orderType = .bracket ∨ parent.orderType = .otoco ∨
            o.childRole = "tp" ∨ o.childRole = "sl"
        · rw [if_pos hb1] at hx
          refine updateOrders_stable ?_ (map_stable ?_ ?_ h1) x hx hxid
          · exact hu _
          · intro y
            dsimp only
            split <;> rfl
          · intro y hy
            dsimp only
            split
            · rfl
            · exact hy
        · rw [if_neg hb1] at hx
          by_cases hb2 : parent.orderType = .oco
          · rw [if_pos hb2] at hx
            refine updateOrders_stable ?_ (map_stable ?_ ?_ h1) x hx hxid
            · exact hu _
            · intro y
              dsimp only
              split <;> rfl
            · intro y hy
              dsimp only
              split
              · rfl
              · exact hy
          · rw [if_neg hb2] at hx
            by_cases hb3 : parent.orderType = .oto
            · rw [if_pos hb3] at hx
              refine updateOrders_stable ?_ (map_stable ?_ ?_ h1) x hx hxid
              · exact hu _
              · intro y
                dsimp only
                split <;> rfl
              · intro y hy
                dsimp only
                split
                · rename_i hc
                  rw [hy] at hc
                  simp at hc
                · exact hy
            · rw [if_neg hb3] at hx
              exact updateOrders_stable (hu _) h1 x hx hxid

/-- `_apply_fill` never revives a canceled row of an id other than the one
being filled. -/
theorem applyFill_canceled_stable (cfg : EngineCfg) (st : State) (o : Order)
    (r : FillResult) (sid : ℕ) (hne : o.id ≠ sid)
    (h : ∀ x ∈ st.orders, x.id = sid → x.status = Status.canceled) :
    ∀ x ∈ (applyFill cfg st o r).orders, x.id = sid → x.status = Status.canceled := by
  intro x hx hxid
  rw [applyFill_orders] at hx
  refine handleParentChildOrders_canceled_stable _ _ sid ?_
    (updateOrders_stable ?_ h) x hx hxid
  · rw [bookkeepOrder_id]
    exact hne
  · intro hh
    rw [bookkeepOrder_id] at hh
    exact absurd hh hne

/-- Cancelling some id keeps every canceled row canceled. -/
theorem cancelOrder_stable (st : State) (oid sid : ℕ)
    (h : ∀ x ∈ st.orders, x.id = sid → x.status = Status.canceled) :
    ∀ x ∈ (cancelOrder st oid).orders, x.id = sid → x.status = Status.canceled := by
  intro x hx hxid
  simp only [cancelOrder] at hx
  obtain ⟨y, hy, hxy⟩ := List.mem_map.mp hx
  by_cases hyo : y.id = oid
  · rw [if_pos hyo] at hxy
    rw [← hxy]
  · rw [if_neg hyo] at hxy
    rw [← hxy] at hxid ⊢
    exact h y hy hxid

/-- The IOC/FOK cancellation sets every row of the canceled id to
`canceled`. -/
theorem cancelOrder_cancels (st : State) (oid : ℕ) :
    ∀ x ∈ (cancelOrder st oid).orders, x.id = oid → x.status = Status.canceled := by
  intro x hx hxid
  simp only [cancelOrder] at hx
  obtain ⟨y, hy, hxy⟩ := List.mem_map.mp hx
  by_cases hyo : y.id = oid
  · rw [if_pos hyo] at hxy
    rw [← hxy]
  · rw [if_neg hyo] at hxy
    rw [← hxy] at hxid
    exact absurd hxid hyo

/-- `canceled` is terminal across a whole `_process_order_instance` pass:
once every row of an id is canceled, processing any order (the canceled one
is skipped by the open-status re-read; any other cannot touch it except via
chain propagation or IOC/FOK cancellation, which never un-cancel) leaves
every row of that id canceled. -/
theorem processOrderInstance_canceled_stable (cfg : EngineCfg) (env : Env)
    (st : State) (oid : ℕ) (now : ℤ) (sid : ℕ)
    (h : ∀ x ∈ st.orders, x.id = sid → x.status = Status.canceled) :
    ∀ x ∈ (processOrderInstance cfg env st oid now).orders, x.id = sid →
      x.status = Status.canceled := by
  intro x hx hxid
  unfold processOrderInstance at hx
  rcases hfind : st.orders.find? (fun y : Order => y.id = oid) with _ | o
  · rw [hfind] at hx
    exact h x hx hxid
  · rw [hfind] at hx
    dsimp only at hx
    have hmem : o ∈ st.orders := List.mem_of_find?_eq_some hfind
    by_cases hopen : isOpen o.status = true
    case neg =>
      rw [if_neg hopen] at hx
      exact h x hx hxid
    case pos =>
      rw [if_pos hopen] at hx
      have hos : o.id ≠ sid := by
        intro hh
        rw [h o hmem hh] at hopen
        simp [isOpen] at hopen
      rcases htg : tifGate o now with ⟨o1, b⟩
      rw [htg] at hx
      rcases b with _ | _
      · have ho1s : o1.id ≠ sid := by
          have ho1 : o1.id = o.id := by
            unfold tifGate at htg
            split at htg
            · cases htg
              rfl
            · split at htg
              · cases htg
                rfl
              · cases htg
          rw [ho1]
          exact hos
        dsimp only at hx
        exact updateOrders_stable (fun hh => absurd hh ho1s) h x hx hxid
      · have ho1o : o1 = o := by
          unfold tifGate at htg
          split at htg
          · cases htg
          · split at htg
            · cases htg
            · cases htg
              rfl
        rw [ho1o] at hx
        dsimp only at hx
        by_cases hhour : o.extendedHours = false ∧ inRegularHours now = false
        · rw [if_pos hhour] at hx
          exact h x hx hxid
        · rw [if_neg hhour] at hx
          rcases hq : env.getQuote o.symbol with _ | quote
          · rw [hq] at hx
            exact h x hx hxid
          · rw [hq] at hx
            dsimp only at hx
            by_cases hsat : satisfiedOrder env o quote now = true
            case neg =>
              rw [if_neg hsat] at hx
              exact h x hx hxid
            case pos =>
              rw [if_pos hsat] at hx
              rcases hmf : maybeFill o quote now with ⟨res, o2⟩
              rw [hmf] at hx
              dsimp only at hx
              have ho2s : o2.id ≠ sid := by
                have hp := (maybeFill_pres o quote now).1
                rw [hmf] at hp
                rw [hp]
                exact hos
              have h2 : ∀ y ∈ updateOrders st.orders o2, y.id = sid →
                  y.status = Status.canceled :=
                updateOrders_stable (fun hh => absurd hh ho2s) h
              rcases res with _ | r
              · dsimp only at hx
                split at hx
                · exact cancelOrder_stable _ oid sid h2 x hx hxid
                · exact h2 x hx hxid
              · dsimp only at hx
                split at hx
                · split at hx
                  · exact cancelOrder_stable _ oid sid
                      (applyFill_canceled_stable cfg _ o2 r sid ho2s h2) x hx hxid
                  · exact applyFill_canceled_stable cfg _ o2 r sid ho2s h2 x hx hxid
                · split at hx
                  · exact cancelOrder_stable _ oid sid h2 x hx hxid
                  · exact h2 x hx hxid

/-- C2 counterexample inputs: an IOC market buy for 50 shares with a reserve
(visible-slice) cap of 10, so the eligible pass fills only 10 of 50. -/
def c2Order : Order :=
  { id := 1, symbol := "AAPL", side := .buy, orderType := .market, tif := .ioc,
    quantity := some 50, reserveQuantity := some 10, extendedHours := true }

def c2Env : Env :=
  { getQuote := fun _ => some { symbol := "AAPL", price := 100 },
    indicatorValue := fun _ _ => none }

def c2State : State := { orders := [c2Order] }

/-- C2: refuted as stated.  An IOC order that fills only partially in the
pass in which it first becomes eligible (here: 10 of 50 shares, capped by
`reserve_quantity`) is left in status `part_filled`, not `canceled`: the
`elif order.tif in {"ioc", "fok"}` cancellation only runs when the pass
produced no fill at all, and the post-fill cancellation only when
`order.tif == "fok"`.  So "does not fill completely … transitions to
canceled in that same pass" is false for `ioc`. -/
theorem c2_counterexample :
    (((processOrderInstance {} c2Env c2State 1 0).orders.find?
        fun x : Order => x.id = 1).map fun x : Order => x.status) =
      some Status.part_filled := by
  norm_num [processOrderInstance, c2State, c2Order, c2Env, isOpen, tifGate,
    satisfiedOrder, satisfiedCond, maybeFill, marketMaybeFill, resolveQuantity,
    visibleSlice, truthyQ, qOr, applyFill, applyFillLedger, bookkeepOrder,
    handleParentChild, handleParentChildOrders, updateOrders, recalcTotals,
    refreshPosition, effPrice, slipMult, cancelOrder, List.find?]

/-- C2 (amended): what the code actually guarantees about IOC/FOK terminal
transitions, in three parts.  (a) An eligible pass (order found open, TIF
gate passed, hours gate passed, quote available, condition satisfied) whose
handler produces no fill cancels an `ioc` or `fok` order immediately.
(b) An eligible pass that produces a partial fill (`filled` with positive
`remaining`) cancels a `fok` order immediately after applying the partial
fill.  (c) `canceled` is terminal: once every row of an order id is
canceled, a `_process_order_instance` pass for any order id leaves every row
of that id canceled — it never returns to `new`/`working`.  (An `ioc`
partial fill is left `part_filled`; see the counterexample.) -/
theorem c2_amended :
    (∀ (cfg : EngineCfg) (env : Env) (st : State) (oid : ℕ) (now : ℤ)
      (o o' : Order) (quote : Quote),
      st.orders.find? (fun x : Order => x.id = oid) = some o →
      isOpen o.status = true →
      tifGate o now = (o, true) →
      ¬(o.extendedHours = false ∧ inRegularHours now = false) →
      env.getQuote o.symbol = some quote →
      satisfiedOrder env o quote now = true →
      maybeFill o quote now = (none, o') →
      (o.tif = .ioc ∨ o.tif = .fok) →
      ∀ x ∈ (processOrderInstance cfg env st oid now).orders, x.id = oid →
        x.status = Status.canceled) ∧
    (∀ (cfg : EngineCfg) (env : Env) (st : State) (oid : ℕ) (now : ℤ)
      (o o' : Order) (quote : Quote) (fr : FillResult),
      st.orders.find? (fun x : Order => x.id = oid) = some o →
      isOpen o.status = true →
      tifGate o now = (o, true) →
      ¬(o.extendedHours = false ∧ inRegularHours now = false) →
      env.getQuote o.symbol = some quote →
      satisfiedOrder env o quote now = true →
      maybeFill o quote now = (some fr, o') →
      fr.filled = true →
      fr.remaining > 0 →
      o.tif = .fok →
      ∀ x ∈ (processOrderInstance cfg env st oid now).orders, x.id = oid →
        x.status = Status.canceled) ∧
    (∀ (cfg : EngineCfg) (env : Env) (st : State) (oid : ℕ) (now : ℤ) (sid : ℕ),
      (∀ x ∈ st.orders, x.id = sid → x.status = Status.canceled) →
      ∀ x ∈ (processOrderInstance cfg env st oid now).orders, x.id = sid →
        x.status = Status.canceled) := by
  refine ⟨?_, ?_, ?_⟩
  · intro cfg env st oid now o o' quote hfind hopen htg hhour hq hsat hmf hioc
    unfold processOrderInstance
    rw [hfind]
    dsimp only
    rw [if_pos hopen, htg]
    dsimp only
    rw [if_neg hhour, hq]
    dsimp only
    rw [if_pos hsat, hmf]
    dsimp only
    have htif : o'.tif = o.tif := by
      have hp := (maybeFill_pres o quote now).2
      rw [hmf] at hp
      exact hp
    rw [if_pos (show o'.tif = Tif.ioc ∨ o'.tif = Tif.fok by rw [htif]; exact hioc)]
    exact cancelOrder_cancels _ oid
  · intro cfg env st oid now o o' quote fr hfind hopen htg hhour hq hsat hmf
      hfill hrem htfok
    unfold processOrderInstance
    rw [hfind]
    dsimp only
    rw [if_pos hopen, htg]
    dsimp only
    rw [if_neg hhour, hq]
    dsimp only
    rw [if_pos hsat, hmf]
    dsimp only
    have htif : o'.tif = o.tif := by
      have hp := (maybeFill_pres o quote now).2
      rw [hmf] at hp
      exact hp
    rw [if_pos hfill,
      if_pos (show o'.tif = Tif.fok ∧ fr.remaining > 0 by
        exact ⟨by rw [htif]; exact htfok, hrem⟩)]
    exact cancelOrder_cancels _ oid
  · intro cfg env st oid now sid h
    exact processOrderInstance_canceled_stable cfg env st oid now sid h

/-- Part (a) witness inputs: an IOC limit buy at 90 that cannot fill at a
quote of 100 (no fill produced in its eligible pass). -/
def c2bOrder : Order :=
  { id := 1, symbol := "AAPL", side := .buy, orderType := .limit, tif := .ioc,
    quantity := some 50, limitPrice := some 90, extendedHours := true }

def c2bState : State := { orders := [c2bOrder] }

def c2bQuote : Quote := { symbol := "AAPL", price := 100 }

/-- Part (b) witness inputs: the counterexample order with TIF `fok`. -/
def c2cOrder : Order := { c2Order with tif := .fok }

def c2cState : State := { orders := [c2cOrder] }

/-- Part (c) witness inputs: a store whose only row of id 2 is canceled. -/
def c2dOrder : Order :=
  { id := 2, symbol := "AAPL", side := .buy, orderType := .market,
    status := .canceled }

def c2dState : State := { orders := [c2dOrder] }

theorem c2_amended_witness :
    ((processOrderInstance {} c2Env c2bState 1 0).orders.find? fun x : Order =>
        x.id = 1).all (fun x : Order => decide (x.status = Status.canceled)) =
      true ∧
    ((processOrderInstance {} c2Env c2cState 1 0).orders.find? fun x : Order =>
        x.id = 1).all (fun x : Order => decide (x.status = Status.canceled)) =
      true ∧
    ((processOrderInstance {} c2Env c2dState 1 0).orders.find? fun x : Order =>
        x.id = 2).all (fun x : Order => decide (x.status = Status.canceled)) =
      true := by
  refine ⟨?_, ?_, ?_⟩
  · have hthm := c2_amended.1 {} c2Env c2bState 1 0 c2bOrder
      { c2bOrder with status := .working } c2bQuote rfl rfl rfl (by decide) rfl rfl
      (by show limitMaybeFill c2bOrder c2bQuote = _
          norm_num [limitMaybeFill, c2bOrder, c2bQuote, isOpen]
          intro hc
          simp at hc)
      (Or.inl rfl)
    rcases hr : (processOrderInstance {} c2Env c2bState 1 0).orders.find?
        fun x : Order => x.id = 1 with _ | x
    · rfl
    · have hmem := List.mem_of_find?_eq_some hr
      have hid : x.id = 1 := by simpa using List.find?_some hr
      simp [Option.all, hthm x hmem hid]
  · have hthm := c2_amended.2.1 {} c2Env c2cState 1 0 c2cOrder c2cOrder
      { symbol := "AAPL", price := 100 }
      { filled := true, quantity := 10, price := 100, remaining := 40 }
      rfl rfl rfl (by decide) rfl rfl
      (by show marketMaybeFill c2cOrder _ = _
          norm_num [marketMaybeFill, c2cOrder, c2Order, isOpen, resolveQuantity,
            visibleSlice, truthyQ, qOr])
      rfl (by norm_num) rfl
    rcases hr : (processOrderInstance {} c2Env c2cState 1 0).orders.find?
        fun x : Order => x.id = 1 with _ | x
    · rfl
    · have hmem := List.mem_of_find?_eq_some hr
      have hid : x.id = 1 := by simpa using List.find?_some hr
      simp [Option.all, hthm x hmem hid]
  · have hthm := c2_amended.2.2 {} c2Env c2dState 1 0 2 (by
      intro x hx hxid
      simp only [c2dState, List.mem_singleton] at hx
      rw [hx]
      rfl)
    rcases hr : (processOrderInstance {} c2Env c2dState 1 0).orders.find?
        fun x : Order => x.id = 2 with _ | x
    · rfl
    · have hmem := List.mem_of_find?_eq_some hr
      have hid : x.id = 2 := by simpa using List.find?_some hr
      simp [Option.all, hthm x hmem hid]

end Alpaca